import Mathlib

/-!
Verification development for the rank-based evaluation core of pykeen
(`src/pykeen/evaluation/metrics.py` and
`src/pykeen/evaluation/rank_based_evaluator.py`).

Strings are embedded as `List Char`; Python floats are embedded as `ℚ`
(every quantity the statements below touch is rational); fallible code
returns `Except`.  Constants that live in `pykeen/typing.py` (a module the
sources do not include) are modelled from the spec and marked as such.
-/

set_option maxHeartbeats 1000000

abbrev Chars := List Char

/-- Decidable equality for `Except`, used to evaluate the embedded functions
at concrete inputs. -/
instance {E A : Type} [DecidableEq E] [DecidableEq A] : DecidableEq (Except E A) := fun x y =>
  match x, y with
  | Except.error a, Except.error b =>
    if h : a = b then isTrue (by rw [h]) else isFalse (fun hh => by cases hh; exact h rfl)
  | Except.error _, Except.ok _ => isFalse (fun hh => by cases hh)
  | Except.ok _, Except.error _ => isFalse (fun hh => by cases hh)
  | Except.ok a, Except.ok b =>
    if h : a = b then isTrue (by rw [h]) else isFalse (fun hh => by cases hh; exact h rfl)

/-- Shorthand turning a string literal into the character-list representation. -/
def chars (s : String) : Chars := s.data

/-- Word character in the sense of the regex class `[\w@]` used by
METRIC_PATTERN (ASCII view, matching the inputs the grammar handles). -/
def isWordChar (c : Char) : Bool := c.isAlphanum || c = '_' || c = '@'

/-- Uppercase-to-lowercase pairs: the ASCII behaviour of Python `str.lower`. -/
def lowerPairs : List (Char × Char) :=
  [('A','a'), ('B','b'), ('C','c'), ('D','d'), ('E','e'), ('F','f'), ('G','g'),
   ('H','h'), ('I','i'), ('J','j'), ('K','k'), ('L','l'), ('M','m'), ('N','n'),
   ('O','o'), ('P','p'), ('Q','q'), ('R','r'), ('S','s'), ('T','t'), ('U','u'),
   ('V','v'), ('W','w'), ('X','x'), ('Y','y'), ('Z','z')]

/-- Lowercase one character (ASCII `str.lower`). -/
def pyLowerChar (c : Char) : Char :=
  ((lowerPairs.find? (fun p => decide (p.1 = c))).map Prod.snd).getD c

/-- One character of `str.replace(" ", "_")`. -/
def replSpaceChar (c : Char) : Char := if c = ' ' then '_' else c

/-- Model of `name.lower().replace(" ", "_")` from `MetricKey.lookup`. -/
def pyName (cs : Chars) : Chars := (cs.map pyLowerChar).map replSpaceChar

def headChars : Chars := chars (r"head")

def tailChars : Chars := chars (r"tail")

def bothChars : Chars := chars (r"both")

/-- Modelled from the spec: `SIDES` of `pykeen.typing` (module not under the
sources) is the tuple (head, tail, both). -/
def sidesAlts : List Chars := [headChars, tailChars, bothChars]

def optimisticChars : Chars := chars (r"optimistic")

def realisticChars : Chars := chars (r"realistic")

def pessimisticChars : Chars := chars (r"pessimistic")

/-- Modelled from the spec: `RANK_TYPES` of `pykeen.typing` (module not under
the sources): the three base rank semantics. -/
def rankTypesChars : List Chars := [optimisticChars, realisticChars, pessimisticChars]

def expectedRealisticChars : Chars := chars (r"expected_realistic")

/-- Modelled from the spec: `RANK_TYPE_SYNONYMS` of `pykeen.typing` (module not
under the sources): alternate rank-type names mapped into the closed set. -/
def rankTypeSynonyms : List (Chars × Chars) :=
  [(chars (r"best"), optimisticChars),
   (chars (r"worst"), pessimisticChars),
   (chars (r"avg"), realisticChars),
   (chars (r"average"), realisticChars)]

/-- The alternatives of the `type` group of METRIC_PATTERN:
`itt.chain(RANK_TYPES, RANK_TYPE_SYNONYMS.keys())`. -/
def typeAlts : List Chars := rankTypesChars ++ rankTypeSynonyms.map Prod.fst

def hitsAtKChars : Chars := chars (r"hits_at_k")

def ARITHMETIC_MEAN_RANK : Chars := chars (r"arithmetic_mean_rank")

def GEOMETRIC_MEAN_RANK : Chars := chars (r"geometric_mean_rank")

def HARMONIC_MEAN_RANK : Chars := chars (r"harmonic_mean_rank")

def MEDIAN_RANK : Chars := chars (r"median_rank")

def INVERSE_ARITHMETIC_MEAN_RANK : Chars := chars (r"inverse_arithmetic_mean_rank")

def INVERSE_GEOMETRIC_MEAN_RANK : Chars := chars (r"inverse_geometric_mean_rank")

def INVERSE_HARMONIC_MEAN_RANK : Chars := chars (r"inverse_harmonic_mean_rank")

def INVERSE_MEDIAN_RANK : Chars := chars (r"inverse_median_rank")

def ADJUSTED_ARITHMETIC_MEAN_RANK : Chars := chars (r"adjusted_arithmetic_mean_rank")

def ADJUSTED_ARITHMETIC_MEAN_RANK_INDEX : Chars := chars (r"adjusted_arithmetic_mean_rank_index")

/-- TYPES_REALISTIC_ONLY from metrics.py. -/
def TYPES_REALISTIC_ONLY : List Chars :=
  [ADJUSTED_ARITHMETIC_MEAN_RANK, ADJUSTED_ARITHMETIC_MEAN_RANK_INDEX]

/-- METRIC_SYNONYMS from metrics.py. -/
def METRIC_SYNONYMS : List (Chars × Chars) :=
  [(chars (r"adjusted_mean_rank"), ADJUSTED_ARITHMETIC_MEAN_RANK),
   (chars (r"adjusted_mean_rank_index"), ADJUSTED_ARITHMETIC_MEAN_RANK_INDEX),
   (chars (r"amr"), ADJUSTED_ARITHMETIC_MEAN_RANK),
   (chars (r"aamr"), ADJUSTED_ARITHMETIC_MEAN_RANK),
   (chars (r"amri"), ADJUSTED_ARITHMETIC_MEAN_RANK_INDEX),
   (chars (r"aamri"), ADJUSTED_ARITHMETIC_MEAN_RANK_INDEX),
   (chars (r"igmr"), INVERSE_GEOMETRIC_MEAN_RANK),
   (chars (r"iamr"), INVERSE_ARITHMETIC_MEAN_RANK),
   (chars (r"mr"), ARITHMETIC_MEAN_RANK),
   (chars (r"mean_rank"), ARITHMETIC_MEAN_RANK),
   (chars (r"mrr"), INVERSE_HARMONIC_MEAN_RANK),
   (chars (r"mean_reciprocal_rank"), INVERSE_HARMONIC_MEAN_RANK)]

/-- Association-list get, modelling Python `dict.get`. -/
def alistGet (l : List (Chars × Chars)) (key : Chars) : Option Chars :=
  (l.find? (fun p => decide (p.1 = key))).map Prod.snd

/-- One optional regex group `(\.(alt1|alt2|...))?`: after a leading dot the
first alternative that is a prefix of the rest is captured (no backtracking is
needed, since everything following any group in METRIC_PATTERN is optional).
Returns the captured text and the remaining input. -/
def tryGroup (alts : List Chars) (s : Chars) : Option Chars × Chars :=
  match s with
  | '.' :: rest =>
    match alts.find? (fun alt => alt.isPrefixOf rest) with
    | some alt => (some alt, rest.drop alt.length)
    | none => (none, s)
  | _ => (none, s)

/-- The optional `(\.(?P<k>\d+))?` group: a dot followed by a maximal
nonempty digit run. -/
def tryK (s : Chars) : Option Chars × Chars :=
  match s with
  | '.' :: rest =>
    let ds := rest.takeWhile Char.isDigit
    if ds.isEmpty then (none, s) else (some ds, rest.drop ds.length)
  | _ => (none, s)

/-- The four named groups of METRIC_PATTERN. -/
structure RegexMatch where
  name : Chars
  side : Option Chars
  rtype : Option Chars
  k : Option Chars
  deriving DecidableEq

/-- METRIC_PATTERN.match(s).  `re.match` anchors at the start only: the name
is the maximal leading `[\w@]` run, each optional group is then tried in
order, and trailing text that fits no group is left unmatched. -/
def metricPatternMatch (s : Chars) : Option RegexMatch :=
  let name := s.takeWhile isWordChar
  if name.isEmpty then none
  else
    let p2 := tryGroup sidesAlts (s.drop name.length)
    let p3 := tryGroup typeAlts p2.2
    let p4 := tryK p3.2
    some ⟨name, p2.1, p3.1, p4.1⟩

def hitsAlts : List Chars := [chars (r"hits_at_"), chars (r"hits@"), chars (r"h@")]

/-- HITS_PATTERN.match(name): one of the prefixes `hits_at_`, `hits@`, `h@`
followed by at least one digit; the captured k is the maximal digit run
(`re.match`, so trailing text after the digits is ignored). -/
def hitsPatternMatch (name : Chars) : Option Chars :=
  (hitsAlts.find? (fun alt =>
      alt.isPrefixOf name && !((name.drop alt.length).takeWhile Char.isDigit).isEmpty)).map
    (fun alt => (name.drop alt.length).takeWhile Char.isDigit)

/-- Numeric value of an ASCII digit. -/
def digitVal (c : Char) : ℕ := c.toNat - 48

/-- Python `int()` on a run of decimal digits. -/
def digitsVal (ds : Chars) : ℕ := ds.foldl (fun n c => 10 * n + digitVal c) 0

/-- A key for the kind of metric to resolve (the `MetricKey` named tuple). -/
structure MetricKey where
  name : Chars
  side : Chars
  rank_type : Chars
  k : Option ℤ
  deriving DecidableEq

/-- The `ValueError`s (and the one `AssertionError`) `MetricKey.lookup` can
raise.  `invalidK` models the `int()`-failure branch, which is unreachable for
regex-captured digit runs but present in the source. -/
inductive LookupError
  | invalidMetricName (s : Chars)
  | noMetricName
  | invalidK (ds : Chars)
  | nonPositiveK (k : ℤ)
  | assertionError
  | invalidSide (side : Chars)
  | invalidRankType (rt : Chars)
  | realisticOnly (name : Chars) (rt : Chars)
  deriving DecidableEq

/-- Lines 89-107 of metrics.py: the `hits_at_k` special case (rewrite the name
and extract k), the k defaulting/parse/sign check, the
`assert k is None or isinstance(k, int)` (which fails when a k component was
captured for a non-hits name), and the METRIC_SYNONYMS application.  Returns
the final metric name together with k. -/
def nameKStage (name1 : Chars) (kRegex : Option Chars) : Except LookupError (Chars × Option ℤ) :=
  let hn := hitsPatternMatch name1
  let name2 := match hn with | some _ => hitsAtKChars | none => name1
  let k2 := match hn with | some ds => some ds | none => kRegex
  if name2 = hitsAtKChars then
    let kv : ℤ := match k2 with | none => (10 : ℤ) | some ds => (digitsVal ds : ℤ)
    if kv < 0 then Except.error (LookupError.nonPositiveK kv)
    else Except.ok ((alistGet METRIC_SYNONYMS name2).getD name2, some kv)
  else
    match k2 with
    | some _ => Except.error LookupError.assertionError
    | none => Except.ok ((alistGet METRIC_SYNONYMS name2).getD name2, none)

/-- Lines 109-113 of metrics.py: `side = side or SIDE_BOTH`, lowering, and the
membership check against SIDES. -/
def sideStage (sideOpt : Option Chars) : Except LookupError Chars :=
  let side := (sideOpt.getD bothChars).map pyLowerChar
  if side ∈ sidesAlts then Except.ok side else Except.error (LookupError.invalidSide side)

/-- Lines 115-122 of metrics.py: rank-type defaulting, lowering, synonym
application, membership check, and the realistic-only restriction. -/
def rtStage (name : Chars) (rtOpt : Option Chars) : Except LookupError Chars :=
  let rt0 := (rtOpt.getD realisticChars).map pyLowerChar
  let rt := (alistGet rankTypeSynonyms rt0).getD rt0
  if rt ∈ rankTypesChars then
    if rt ≠ realisticChars ∧ name ∈ TYPES_REALISTIC_ONLY then
      Except.error (LookupError.realisticOnly name rt)
    else Except.ok rt
  else Except.error (LookupError.invalidRankType rt)

/-- `MetricKey.lookup`: match METRIC_PATTERN, normalize the name
(`lower`, space folding), then run the k, side and rank-type stages. -/
def MetricKey.lookup (s : Chars) : Except LookupError MetricKey :=
  match metricPatternMatch s with
  | none => Except.error (LookupError.invalidMetricName s)
  | some m =>
    if m.name.isEmpty then Except.error LookupError.noMetricName
    else
      match nameKStage (pyName m.name) m.k with
      | Except.error e => Except.error e
      | Except.ok nk =>
        match sideStage m.side with
        | Except.error e => Except.error e
        | Except.ok side =>
          match rtStage nk.1 m.rtype with
          | Except.error e => Except.error e
          | Except.ok rt => Except.ok ⟨nk.1, side, rt, nk.2⟩

/-- Pairs for rendering one decimal digit. -/
def digitPairs : List (ℕ × Char) :=
  [(0,'0'),(1,'1'),(2,'2'),(3,'3'),(4,'4'),(5,'5'),(6,'6'),(7,'7'),(8,'8'),(9,'9')]

/-- Character of a decimal digit. -/
def digitChar (d : ℕ) : Char :=
  ((digitPairs.find? (fun p => decide (p.1 = d))).map Prod.snd).getD '*'

/-- Fuel-indexed decimal rendering (structural, so that it computes). -/
def natDigitCharsAux : ℕ → ℕ → Chars
  | 0, _ => []
  | _ + 1, 0 => []
  | fuel + 1, n + 1 => natDigitCharsAux fuel ((n + 1) / 10) ++ [digitChar ((n + 1) % 10)]

/-- Decimal rendering of a natural number (empty for 0, which `__str__` never
prints because 0 is falsy). -/
def natDigitChars (n : ℕ) : Chars := natDigitCharsAux n n

/-- Python `str()` of an int. -/
def intChars (k : ℤ) : Chars :=
  if k < 0 then '-' :: natDigitChars (-k).toNat else natDigitChars k.toNat

/-- `MetricKey.__str__`: join name, side, rank type — and k when k is truthy
(not None and nonzero). -/
def MetricKey.toChars (key : MetricKey) : Chars :=
  key.name ++ '.' :: (key.side ++ '.' :: (key.rank_type ++
    (match key.k with
     | some kv => if kv = 0 then [] else '.' :: intChars kv
     | none => [])))

/-- `MetricKey.normalize` = `str(lookup(s))`. -/
def MetricKey.normalize (s : Chars) : Except LookupError Chars :=
  (MetricKey.lookup s).map MetricKey.toChars

/-- The documented external grammar `name[.side][.rank_type][.k]` read as a
whole-string match: like METRIC_PATTERN but additionally requiring that no
input remain after the optional groups.  This is the reference reading of the
interface, to compare with what `lookup` actually accepts. -/
def matchesGrammarFull (s : Chars) : Bool :=
  let name := s.takeWhile isWordChar
  if name.isEmpty then false
  else
    let p2 := tryGroup sidesAlts (s.drop name.length)
    let p3 := tryGroup typeAlts p2.2
    let p4 := tryK p3.2
    p4.2.isEmpty

/-- Arithmetic mean of a list (np.mean over a 1-D array). -/
def listMean (l : List ℚ) : ℚ := l.sum / l.length

/-- Weighted mean, np.average(values, weights) = sum(w*v)/sum(w). -/
def weightedAverage (values weights : List ℚ) : ℚ :=
  (List.zipWith (· * ·) weights values).sum / weights.sum

/-- Unweighted median, np.median: mean of the two middle elements of the
sorted sequence for even length, the middle element for odd length. -/
def npMedian (l : List ℚ) : ℚ :=
  let s := List.insertionSort (· ≤ ·) l
  if l.length % 2 = 0 then (s.getD (l.length / 2 - 1) 0 + s.getD (l.length / 2) 0) / 2
  else s.getD (l.length / 2) 0

/-- Indices ordered so that the values they select ascend: a deterministic
(stable) model of np.argsort. -/
def argsortIndices (a : List ℚ) : List ℕ :=
  List.insertionSort (fun i j => a.getD i 0 ≤ a.getD j 0) (List.range a.length)

/-- Cumulative sums, np.cumsum. -/
def cumsum (l : List ℚ) : List ℚ := (l.scanl (· + ·) 0).tail

/-- weighted_median from metrics.py: argsort the values, permute the weights
alongside, prepend 0 to the weights before the cumulative sum (np.r_[0, w]),
normalize by the total, and index the sorted values at
searchsorted(cum, 0.5).  `none` models the IndexError raised when that index
is one past the end.  np.searchsorted assumes its input sorted — which the
nonnegative weights used here guarantee — and then returns the first index
whose entry reaches 0.5. -/
def weighted_median (a weights : List ℚ) : Option ℚ :=
  let indices := argsortIndices a
  let s_ranks := indices.map (fun i => a.getD i 0)
  let s_weights := indices.map (fun i => weights.getD i 0)
  let cum := cumsum ((0 : ℚ) :: s_weights)
  let total := (cum.getLast?).getD 0
  let cumN := cum.map (· / total)
  let idx := cumN.findIdx (fun c => decide ((1 : ℚ) / 2 ≤ c))
  s_ranks.get? idx

/-- Prediction target (LABEL_HEAD / LABEL_TAIL). -/
inductive Target
  | head
  | tail
  deriving DecidableEq

/-- Extended target: a target or the pooled view SIDE_BOTH. -/
inductive ESide
  | head
  | tail
  | both
  deriving DecidableEq

/-- Extended rank type. -/
inductive RankType
  | optimistic
  | realistic
  | pessimistic
  | expected_realistic
  deriving DecidableEq

/-- Modelled from the spec: RANK_TYPES of pykeen.typing (module not under the
sources): the three base rank semantics finalize iterates over. -/
def RANK_TYPES : List RankType := [RankType.optimistic, RankType.realistic, RankType.pessimistic]

/-- Modelled from the spec: SIDES of pykeen.typing (head, tail, both). -/
def SIDES : List ESide := [ESide.head, ESide.tail, ESide.both]

/-- Modelled from the spec: EXPECTED_RANKS maps realistic to its
expected-realistic chance baseline and has no other entries. -/
def EXPECTED_RANKS : RankType → Option RankType
  | RankType.realistic => some RankType.expected_realistic
  | _ => none

/-- A hits@k parameter: an absolute integer threshold or a relative fraction
(validated in __init__ to lie strictly between 0 and 1). -/
inductive KParam
  | int (k : ℕ)
  | frac (f : ℚ)
  deriving DecidableEq

/-- The hits threshold `k if isinstance(k, int) else int(self.num_entities * k)`
(int() truncates; the operand is nonnegative, so truncation is the floor). -/
def kThreshold (numEntities : ℕ) (k : KParam) : ℚ :=
  match k with
  | KParam.int k => (k : ℚ)
  | KParam.frac f => ((⌊(numEntities : ℚ) * f⌋ : ℤ) : ℚ)

/-- The default ks tuple (1, 3, 5, 10). -/
def defaultKs : List KParam := [KParam.int 1, KParam.int 3, KParam.int 5, KParam.int 10]

/-- The runtime errors of the finalize paths. -/
inductive EvalError
  | valueError
  | assertionError
  | indexError
  deriving DecidableEq

/-- The mutable state of RankBasedEvaluator: num_entities (None until a batch
is processed) and the per-(target, rank-type) rank buffers (a defaultdict of
lists, so absent keys read as empty). -/
structure MicroState where
  numEntities : Option ℕ
  ranks : Target → RankType → List ℚ

/-- A fresh RankBasedEvaluator (__init__). -/
def microInit : MicroState := ⟨none, fun _ _ => []⟩

/-- `_get_ranks`: for SIDE_BOTH, the head buffer followed by the tail buffer. -/
def MicroState.getRanks (st : MicroState) : ESide → RankType → List ℚ
  | ESide.head, rt => st.ranks Target.head rt
  | ESide.tail, rt => st.ranks Target.tail rt
  | ESide.both, rt => st.ranks Target.head rt ++ st.ranks Target.tail rt

/-- The (side, rank_type) iteration order of finalize,
`itt.product(SIDES, RANK_TYPES)`. -/
def sideTypePairs : List (ESide × RankType) :=
  SIDES.flatMap (fun s => RANK_TYPES.map (fun rt => (s, rt)))

/-- A finalize-built nested dict: it holds exactly the (side, rank_type)
entries the loop wrote, in loop order. -/
def mkTable {β : Type} (f : ESide × RankType → Option β) : List ((ESide × RankType) × β) :=
  sideTypePairs.filterMap (fun p => (f p).map (fun b => (p, b)))

/-- Dict access on a finalize-built table. -/
def tblGet {β : Type} (t : List ((ESide × RankType) × β)) (p : ESide × RankType) : Option β :=
  (t.find? (fun e => decide (e.1 = p))).map Prod.snd

/-- Hits@k values for one buffer: np.mean of the indicator rank ≤ threshold. -/
def hitsValues (ks : List KParam) (numEntities : ℕ) (ranks : List ℚ) : List (KParam × ℚ) :=
  ks.map (fun k =>
    (k, ((ranks.map (fun r => if r ≤ kThreshold numEntities k then (1 : ℚ) else 0)).sum) / ranks.length))

/-- The fields of RankBasedMetricResults this development tracks: the
rational-valued reductions finalize writes.  The geometric/harmonic means and
the deviation statistics are further real-valued reductions of the same
buffers, written by the same skip-guarded loop iteration. -/
structure RBResults where
  arithmetic_mean_rank : List ((ESide × RankType) × ℚ)
  rank_count : List ((ESide × RankType) × ℕ)
  hits_at_k : List ((ESide × RankType) × List (KParam × ℚ))
  adjusted_arithmetic_mean_rank : List ((ESide × RankType) × ℚ)
  adjusted_arithmetic_mean_rank_index : List ((ESide × RankType) × ℚ)
  deriving DecidableEq

/-- Whether finalize writes metrics for a pair: the loop skips a pair whose
buffer is empty (`if len(ranks) < 1: continue`). -/
def microWritten (st : MicroState) (p : ESide × RankType) : Bool :=
  !(st.getRanks p.1 p.2).isEmpty

/-- The ARITHMETIC_MEAN_RANK entry of one pair. -/
def microAMR (st : MicroState) (p : ESide × RankType) : Option ℚ :=
  if microWritten st p then some (listMean (st.getRanks p.1 p.2)) else none

/-- The RANK_COUNT entry of one pair. -/
def microCount (st : MicroState) (p : ESide × RankType) : Option ℕ :=
  if microWritten st p then some (st.getRanks p.1 p.2).length else none

/-- The hits_at_k entry of one pair. -/
def microHits (ks : List KParam) (ne : ℕ) (st : MicroState) (p : ESide × RankType) :
    Option (List (KParam × ℚ)) :=
  if microWritten st p then some (hitsValues ks ne (st.getRanks p.1 p.2)) else none

/-- The ADJUSTED_ARITHMETIC_MEAN_RANK entry: written when the pair was
written, its rank type has an expected counterpart, and the expected buffer is
nonempty; the value divides the stored arithmetic mean rank by the expected
mean. -/
def microAAMR (st : MicroState) (p : ESide × RankType) : Option ℚ :=
  match EXPECTED_RANKS p.2 with
  | none => none
  | some ert =>
    if microWritten st p ∧ ¬(st.getRanks p.1 ert).isEmpty then
      some (listMean (st.getRanks p.1 p.2) / listMean (st.getRanks p.1 ert))
    else none

/-- The ADJUSTED_ARITHMETIC_MEAN_RANK_INDEX entry:
`1 - (amr - 1) / (expected_mean - 1)` under the same guard as `microAAMR`. -/
def microAAMRI (st : MicroState) (p : ESide × RankType) : Option ℚ :=
  match EXPECTED_RANKS p.2 with
  | none => none
  | some ert =>
    if microWritten st p ∧ ¬(st.getRanks p.1 ert).isEmpty then
      some (1 - (listMean (st.getRanks p.1 p.2) - 1) / (listMean (st.getRanks p.1 ert) - 1))
    else none

/-- RankBasedEvaluator.finalize: raise when no batch ever established
num_entities; otherwise build the nested result tables over
itt.product(SIDES, RANK_TYPES) (skipping empty pairs) and clear the rank
buffers as the final step before returning. -/
def microFinalize (ks : List KParam) (st : MicroState) : Except EvalError (RBResults × MicroState) :=
  match st.numEntities with
  | none => Except.error EvalError.valueError
  | some ne =>
    Except.ok
      (⟨mkTable (microAMR st), mkTable (microCount st), mkTable (microHits ks ne st),
        mkTable (microAAMR st), mkTable (microAAMRI st)⟩,
       { st with ranks := fun _ _ => [] })

/-- MacroRankBasedEvaluator state: the inherited evaluator state plus the
per-target grouping-key buffer (`self.keys`, a defaultdict of lists). -/
structure MacroState extends MicroState where
  keys : Target → List (ℤ × ℤ)

/-- A fresh MacroRankBasedEvaluator. -/
def macroInit : MacroState := ⟨microInit, fun _ => []⟩

/-- `_get_keys`: head keys then tail keys for SIDE_BOTH, matching the rank
concatenation order. -/
def MacroState.getKeys (st : MacroState) : ESide → List (ℤ × ℤ)
  | ESide.head => st.keys Target.head
  | ESide.tail => st.keys Target.tail
  | ESide.both => st.keys Target.head ++ st.keys Target.tail

/-- Rank access on the inherited buffers. -/
def MacroState.getRanks (st : MacroState) (side : ESide) (rt : RankType) : List ℚ :=
  st.toMicroState.getRanks side rt

/-- Lines 590-594 of rank_based_evaluator.py: per-observation weights equal to
the reciprocal of the multiplicity of the observation's grouping key
(np.unique with return_inverse/return_counts, np.reciprocal, gather). -/
def macroWeights (keys : List (ℤ × ℤ)) : List ℚ :=
  keys.map (fun k => ((keys.count k : ℚ))⁻¹)

/-- The rational entries of get_macro_ranking_metrics for one buffer: the
weighted mean, the weighted median (whose IndexError propagates as `none`),
the weighted variance, and the raw count.  The weighted geometric means are
real-valued, and the harmonic-mean/MAD entries are NaN placeholders. -/
structure MacroEntry where
  amr : ℚ
  median : ℚ
  variance : ℚ
  count : ℕ
  deriving DecidableEq

/-- Run get_macro_ranking_metrics on one buffer. -/
def macroEntry (ranks weights : List ℚ) : Option MacroEntry :=
  let mean := weightedAverage ranks weights
  match weighted_median ranks weights with
  | none => none
  | some med =>
    some ⟨mean, med, weightedAverage (ranks.map (fun r => (r - mean) ^ 2)) weights, ranks.length⟩

/-- Weighted hits@k (np.average of the indicator with the macro weights). -/
def macroHitsValues (ks : List KParam) (ne : ℕ) (ranks weights : List ℚ) : List (KParam × ℚ) :=
  ks.map (fun k =>
    (k, weightedAverage (ranks.map (fun r => if r ≤ kThreshold ne k then (1 : ℚ) else 0)) weights))

/-- One iteration of the macro finalize loop: the shape assert
(`assert ranks.shape == weights.shape`), the skip of empty pairs, and the
weighted aggregation of one (side, rank type) pair. -/
def macroPairStep (ks : List KParam) (ne : ℕ) (st : MacroState) (p : ESide × RankType) :
    Except EvalError (Option (MacroEntry × List (KParam × ℚ))) :=
  let ranks := st.getRanks p.1 p.2
  let weights := macroWeights (st.getKeys p.1)
  if ranks.length ≠ weights.length then Except.error EvalError.assertionError
  else if ranks.isEmpty then Except.ok none
  else
    match macroEntry ranks weights with
    | none => Except.error EvalError.indexError
    | some e => Except.ok (some (e, macroHitsValues ks ne ranks weights))

/-- The macro finalize loop over the remaining (side, rank type) pairs, in
order, collecting the written entries. -/
def macroLoop (ks : List KParam) (ne : ℕ) (st : MacroState) :
    List (ESide × RankType) →
      Except EvalError (List ((ESide × RankType) × (MacroEntry × List (KParam × ℚ))))
  | [] => Except.ok []
  | p :: rest =>
    match macroPairStep ks ne st p with
    | Except.error e => Except.error e
    | Except.ok none => macroLoop ks ne st rest
    | Except.ok (some v) => (macroLoop ks ne st rest).map (fun t => (p, v) :: t)

/-- MacroRankBasedEvaluator.finalize: the num_entities check, then the
per-pair loop.  No buffer is cleared: the returned state is the input state. -/
def macroFinalize (ks : List KParam) (st : MacroState) :
    Except EvalError ((List ((ESide × RankType) × (MacroEntry × List (KParam × ℚ)))) × MacroState) :=
  match st.numEntities with
  | none => Except.error EvalError.valueError
  | some ne => (macroLoop ks ne st sideTypePairs).map (fun t => (t, st))

/-- A mapped (head, relation, tail) ID triple. -/
structure Triple where
  h : ℤ
  r : ℤ
  t : ℤ
  deriving DecidableEq

/-- Modelled from the spec: prepare_filter_triples (defined in evaluator.py,
which is not under the sources) merges the evaluation triples themselves into
the supplied filter-triple set; only membership in the result matters below. -/
def prepareFilterTriples (evalTriples additional : List Triple) : List Triple :=
  evalTriples ++ additional

/-- The num_entities default in sample_negatives:
`additional_filter_triples[:, [0, 2]].max().item() + 1`. -/
def defaultNumEntities (filterTriples : List Triple) : ℕ :=
  ((filterTriples.map (fun f => max f.h f.t)).foldr max 0 + 1).toNat

/-- The entity occupying the predicted column of a triple. -/
def colVal (side : Target) (f : Triple) : ℤ :=
  match side with
  | Target.head => f.h
  | Target.tail => f.t

/-- The grouping key of a triple: the two non-predicted columns, in column
order ((relation, tail) for head prediction, (head, relation) for tail). -/
def keyOf (side : Target) (f : Triple) : ℤ × ℤ :=
  match side with
  | Target.head => (f.r, f.t)
  | Target.tail => (f.h, f.r)

/-- Candidate pool of one grouping key:
`all_ids.difference(group[side_all].unique())` — every entity ID except those
occupying the predicted column of some filter triple carrying this key. -/
def candidatePool (side : Target) (filterTriples : List Triple) (allIds : List ℤ)
    (key : ℤ × ℤ) : List ℤ :=
  allIds.filter (fun e => !(filterTriples.any (fun f => decide (keyOf side f = key ∧ colVal side f = e))))

/-- Python `x or default` for an optional integer: the default is used when x
is None or 0, both of which are falsy (`num_entities or ...` at line 425,
`num_negatives or 50` at line 490). -/
def pyOrNat (x : Option ℕ) (d : ℕ) : ℕ :=
  match x with
  | none => d
  | some v => if v = 0 then d else v

/-- Tiling of an undersized pool: `ceil(num_samples / len(pool)) * pool`
(the warning-and-repeat branch).  On an empty pool the division raises
ZeroDivisionError, modelled as none. -/
def tiledPool (numSamples : ℕ) (pool : List ℤ) : Option (List ℤ) :=
  if pool.length < numSamples then
    if pool.isEmpty then none
    else some (List.replicate ((numSamples + pool.length - 1) / pool.length) pool).flatten
  else some pool

/-- Collecting the per-triple rows, failing as soon as one row failed (the
loop in sample_negatives raises before the table is returned). -/
def sequenceRows : List (Option (List ℤ)) → Option (List (List ℤ))
  | [] => some []
  | none :: _ => none
  | some r :: rest => (sequenceRows rest).map (fun t => r :: t)

/-- sample_negatives for one side: for every evaluation triple, draw
num_samples entries from the (possibly tiled) candidate pool of its grouping
key; the whole call fails when any pool is empty and must be tiled.  The
random draw (random.sample) is passed in as a function; a faithful
instantiation returns elements of the pool it is given. -/
def sampleNegatives (sample : List ℤ → ℕ → List ℤ) (evalTriples additional : List Triple)
    (numSamples : ℕ) (numEntities : Option ℕ) (side : Target) : Option (List (List ℤ)) :=
  let filterTriples := prepareFilterTriples evalTriples additional
  let ne := pyOrNat numEntities (defaultNumEntities filterTriples)
  let allIds := (List.range ne).map (fun i => (i : ℤ))
  sequenceRows (evalTriples.map (fun tr =>
    (tiledPool numSamples (candidatePool side filterTriples allIds (keyOf side tr))).map
      (fun pool => sample pool numSamples)))

/-- The evaluation-triples factory interface: entity count and triples;
num_triples is the length of the triple list. -/
structure Factory where
  numEntities : ℕ
  triples : List Triple

/-- The factory's num_triples. -/
def Factory.numTriples (f : Factory) : ℕ := f.triples.length

/-- SampledRankBasedEvaluator state: the inherited evaluator state, and the
per-side negative tables plus the (h, r, t) → row-index map built at
construction. -/
structure SampledState extends MicroState where
  negativeSamples : Target → List (List ℤ)
  tripleToIndex : List (Triple × ℕ)

/-- The errors SampledRankBasedEvaluator.__init__ can raise: the three
ValueErrors, and the ZeroDivisionError escaping from sample_negatives when
some candidate pool is empty. -/
inductive InitError
  | bothOrNeither
  | tooManySamples
  | wrongShape (side : Target)
  | zeroDivision
  deriving DecidableEq

/-- The shared tail of __init__: the per-side shape verification
(`side_negatives.shape[0] != evaluation_factory.num_triples`) and the state
construction (triple_to_index, negative_samples, num_entities). -/
def sampledFinish (factory : Factory) (negatives : Target → List (List ℤ)) :
    Except InitError SampledState :=
  if (negatives Target.head).length ≠ factory.numTriples then
    Except.error (InitError.wrongShape Target.head)
  else if (negatives Target.tail).length ≠ factory.numTriples then
    Except.error (InitError.wrongShape Target.tail)
  else
    Except.ok ⟨⟨some factory.numEntities, fun _ _ => []⟩, negatives,
      factory.triples.enum.map (fun p => (p.2, p.1))⟩

/-- SampledRankBasedEvaluator.__init__: generate negatives when neither table
is supplied (after checking `num_negatives or 50` — so a falsy 0 means 50 —
against the entity count), reject a single-sided supply, and validate shapes.
Note that the constructor ends by setting num_entities from the factory. -/
def sampledInit (sample : List ℤ → ℕ → List ℤ) (factory : Factory) (additional : List Triple)
    (numNegatives : Option ℕ) (headNegatives tailNegatives : Option (List (List ℤ))) :
    Except InitError SampledState :=
  match headNegatives, tailNegatives with
  | none, none =>
    let nn := pyOrNat numNegatives 50
    if nn > factory.numEntities then Except.error InitError.tooManySamples
    else
      match sampleNegatives sample factory.triples additional nn (some factory.numEntities)
          Target.head,
        sampleNegatives sample factory.triples additional nn (some factory.numEntities)
          Target.tail with
      | some hn, some tn =>
        sampledFinish factory
          (fun side => match side with | Target.head => hn | Target.tail => tn)
      | _, _ => Except.error InitError.zeroDivision
  | some hs, some ts =>
    sampledFinish factory (fun side => match side with | Target.head => hs | Target.tail => ts)
  | _, _ => Except.error InitError.bothOrNeither

/-! ### Buffer lifecycle at finalize -/

/-- Helper: the weighted median of two equally weighted distinct values. -/
theorem weighted_median_pair : weighted_median [1, 2] [1, 1] = some 2 := by
  norm_num [weighted_median, argsortIndices, cumsum, List.insertionSort, List.orderedInsert,
    List.range, List.range.loop, List.scanl, List.findIdx, List.findIdx.go]

/-- A macro accumulator holding, for each base rank type, two head
observations with two distinct grouping keys (a state reachable by one
two-example head batch). -/
def exMacroState : MacroState :=
  ⟨⟨some 4, fun t _ => match t with | Target.head => [1, 2] | Target.tail => []⟩,
   fun t => match t with | Target.head => [(0, 0), (1, 1)] | Target.tail => []⟩

/-- Helper: the weights of the example macro accumulator. -/
theorem macroWeights_exKeys : macroWeights [((0 : ℤ), (0 : ℤ)), (1, 1)] = [1, 1] := by
  have h1 : List.count ((0 : ℤ), (0 : ℤ)) [((0 : ℤ), (0 : ℤ)), (1, 1)] = 1 := rfl
  have h2 : List.count ((1 : ℤ), (1 : ℤ)) [((0 : ℤ), (0 : ℤ)), (1, 1)] = 1 := rfl
  simp [macroWeights, h1, h2]

/-- Helper: macro finalize completes on the example accumulator and hands back
the state unchanged. -/
theorem exMacro_ok : ∃ t, macroFinalize defaultKs exMacroState = Except.ok (t, exMacroState) := by
  simp only [macroFinalize, exMacroState, sideTypePairs, SIDES, RANK_TYPES, macroLoop,
    macroPairStep, macroEntry, MacroState.getRanks, MacroState.getKeys, MicroState.getRanks,
    List.flatMap, List.map, List.append_nil, List.nil_append, macroWeights_exKeys,
    weighted_median_pair]
  simp [macroWeights_exKeys, weighted_median_pair]
  exact ⟨_, rfl⟩

/-- C1 (amended): when finalize completes successfully, the micro
RankBasedEvaluator — and with it the sampled variant, which inherits this
finalize — clears the rank buffers as its final step; the macro variant
clears nothing: its finalize returns every buffer (ranks and grouping keys)
exactly as it found them. -/
theorem c1_finalize_clearing_amended :
    (∀ (ks : List KParam) (st : MicroState) (p : RBResults × MicroState),
        microFinalize ks st = Except.ok p → p.2.ranks = fun _ _ => []) ∧
    (∀ (ks : List KParam) (st : MacroState)
        (q : (List ((ESide × RankType) × (MacroEntry × List (KParam × ℚ)))) × MacroState),
        macroFinalize ks st = Except.ok q → q.2 = st) := by
  constructor
  · intro ks st p h
    unfold microFinalize at h
    cases hne : st.numEntities with
    | none => rw [hne] at h; exact absurd h (by simp)
    | some ne =>
      rw [hne] at h
      cases h
      rfl
  · intro ks st q h
    unfold macroFinalize at h
    cases hne : st.numEntities with
    | none => rw [hne] at h; exact absurd h (by simp)
    | some ne =>
      rw [hne] at h
      have h2 : Except.map (fun t => (t, st)) (macroLoop ks ne st sideTypePairs) = Except.ok q := h
      cases hl : macroLoop ks ne st sideTypePairs with
      | error e => rw [hl] at h2; exact absurd h2 (by simp [Except.map])
      | ok t =>
        rw [hl] at h2
        cases h2
        rfl

/-- C1 counterexample: the macro variant's finalize completes successfully on
an accumulator holding two observations, and afterwards the rank buffer and
the grouping-key buffer still hold them — the accumulator does not store zero
observations after finalize. -/
theorem c1_counterexample :
    (macroFinalize defaultKs exMacroState).toOption.map
        (fun q => (q.2.toMicroState.ranks Target.head RankType.realistic, q.2.keys Target.head)) =
      some ([1, 2], [(0, 0), (1, 1)]) := by
  obtain ⟨t, ht⟩ := exMacro_ok
  rw [ht]
  rfl

/-- Micro accumulator with one realistic head observation. -/
def exMicroA : MicroState := ⟨some 2, fun _ _ => [1]⟩

/-- Witness for the amended C1 theorem at concrete accumulators. -/
theorem c1_finalize_clearing_amended_witness :
    (microFinalize defaultKs exMicroA).toOption.map
        (fun p => p.2.ranks Target.head RankType.realistic) = some [] ∧
    (macroFinalize defaultKs exMacroState).toOption.map
        (fun q => q.2.keys Target.head) = some [(0, 0), (1, 1)] := by
  constructor
  · cases hm : microFinalize defaultKs exMicroA with
    | error e => exact absurd hm (by simp [microFinalize, exMicroA])
    | ok p =>
      have hc := c1_finalize_clearing_amended.1 defaultKs exMicroA p hm
      show some (p.2.ranks Target.head RankType.realistic) = some []
      rw [hc]
  · obtain ⟨t, ht⟩ := exMacro_ok
    cases hm : macroFinalize defaultKs exMacroState with
    | error e => rw [hm] at ht; exact absurd ht (by simp)
    | ok q =>
      have hq := c1_finalize_clearing_amended.2 defaultKs exMacroState q hm
      show some (q.2.keys Target.head) = some [(0, 0), (1, 1)]
      rw [hq]
      rfl

/-! ### Finalize on an accumulator that received no batches -/

/-- Helper: a successful sampledFinish always records the factory entity
count in the state. -/
theorem sampledFinish_numEntities (factory : Factory) (negs : Target → List (List ℤ))
    (st : SampledState) (hf : sampledFinish factory negs = Except.ok st) :
    st.numEntities = some factory.numEntities := by
  unfold sampledFinish at hf
  split at hf
  · exact absurd hf (by simp)
  · split at hf
    · exact absurd hf (by simp)
    · cases hf; rfl

/-- C6 (amended): finalize on a batch-less micro or macro accumulator fails
with the num_entities state error; the sampled variant does not fail, because
its constructor already establishes the candidate count from the evaluation
factory, so finalize on a batch-less sampled accumulator returns results. -/
theorem c6_no_batch_finalize_amended :
    (∀ ks : List KParam, microFinalize ks microInit = Except.error EvalError.valueError) ∧
    (∀ ks : List KParam, macroFinalize ks macroInit = Except.error EvalError.valueError) ∧
    (∀ (sample : List ℤ → ℕ → List ℤ) (factory : Factory) (additional : List Triple)
        (nn : Option ℕ) (hN tN : Option (List (List ℤ))) (st : SampledState) (ks : List KParam),
        sampledInit sample factory additional nn hN tN = Except.ok st →
          st.numEntities = some factory.numEntities ∧
            (microFinalize ks st.toMicroState).isOk = true) := by
  refine ⟨fun ks => rfl, fun ks => rfl, ?_⟩
  intro sample factory additional nn hN tN st ks h
  have hne : st.numEntities = some factory.numEntities := by
    cases hN with
    | none =>
      cases tN with
      | none =>
        have h2 : (if pyOrNat nn 50 > factory.numEntities then
              (Except.error InitError.tooManySamples : Except InitError SampledState)
            else
              match sampleNegatives sample factory.triples additional (pyOrNat nn 50)
                  (some factory.numEntities) Target.head,
                sampleNegatives sample factory.triples additional (pyOrNat nn 50)
                  (some factory.numEntities) Target.tail with
              | some hn, some tn =>
                sampledFinish factory
                  (fun side => match side with | Target.head => hn | Target.tail => tn)
              | _, _ => Except.error InitError.zeroDivision) = Except.ok st := h
        split at h2
        · exact absurd h2 (by simp)
        · split at h2 <;>
            first
              | exact sampledFinish_numEntities _ _ _ h2
              | exact absurd h2 (by simp)
      | some ts => simp [sampledInit] at h
    | some hs =>
      cases tN with
      | none => simp [sampledInit] at h
      | some ts =>
        exact sampledFinish_numEntities _ _ _
          (show sampledFinish factory (fun side =>
              match side with | Target.head => hs | Target.tail => ts) = Except.ok st from h)
  refine ⟨hne, ?_⟩
  unfold microFinalize
  rw [show st.toMicroState.numEntities = some factory.numEntities from hne]
  rfl

/-- C6 counterexample: a sampled evaluator constructed with explicit
negative tables and never fed a batch finalizes successfully instead of
failing with a state error. -/
theorem c6_counterexample :
    (sampledInit (fun p k => p.take k) ⟨3, [⟨0, 0, 1⟩]⟩ [] none
          (some [[2]]) (some [[0]])).toOption.map
        (fun st => (microFinalize defaultKs st.toMicroState).isOk) = some true := rfl

/-- The sampled state built by the example construction. -/
def exSampledState : SampledState :=
  ⟨⟨some 3, fun _ _ => []⟩,
   fun side => match side with | Target.head => [[2]] | Target.tail => [[0]],
   [(⟨0, 0, 1⟩, 0)]⟩

/-- Witness for the amended C6 theorem at a concrete construction. -/
theorem c6_no_batch_finalize_amended_witness :
    exSampledState.numEntities = some 3 ∧
      (microFinalize defaultKs exSampledState.toMicroState).isOk = true :=
  c6_no_batch_finalize_amended.2.2 (fun p k => p.take k) ⟨3, [⟨0, 0, 1⟩]⟩ [] none
    (some [[2]]) (some [[0]]) exSampledState defaultKs rfl

/-! ### Adjusted mean rank metrics -/

/-- Helper: reading a loop-built table at a pair outside the key list. -/
theorem tblGet_filterMap_not_mem {β : Type} (l : List (ESide × RankType))
    (f : ESide × RankType → Option β) (p : ESide × RankType) (hp : p ∉ l) :
    tblGet (l.filterMap (fun q => (f q).map (fun b => (q, b)))) p = none := by
  induction l with
  | nil => rfl
  | cons a t ih =>
    have hpa : ¬(a = p) := fun hh => hp (hh ▸ List.mem_cons_self a t)
    have hpt : p ∉ t := fun hh => hp (List.mem_cons_of_mem a hh)
    cases hfa : f a with
    | none => simpa [List.filterMap_cons, hfa] using ih hpt
    | some b =>
      have := ih hpt
      simpa [List.filterMap_cons, hfa, tblGet, List.find?, hpa] using this

/-- Helper: reading a loop-built table over a duplicate-free key list at a
listed pair recovers the per-pair value. -/
theorem tblGet_filterMap_mem {β : Type} (l : List (ESide × RankType))
    (f : ESide × RankType → Option β) (p : ESide × RankType) (hl : l.Nodup) (hp : p ∈ l) :
    tblGet (l.filterMap (fun q => (f q).map (fun b => (q, b)))) p = f p := by
  induction l with
  | nil => cases hp
  | cons a t ih =>
    rcases List.mem_cons.mp hp with h | h
    · subst h
      have hnt : p ∉ t := (List.nodup_cons.mp hl).1
      cases hfp : f p with
      | none =>
        simpa [List.filterMap_cons, hfp] using tblGet_filterMap_not_mem t f p hnt
      | some b => simp [List.filterMap_cons, hfp, tblGet, List.find?]
    · have hl2 := (List.nodup_cons.mp hl).2
      have hpa : ¬(a = p) := fun hh => (List.nodup_cons.mp hl).1 (hh ▸ h)
      cases hfa : f a with
      | none => simpa [List.filterMap_cons, hfa] using ih hl2 h
      | some b =>
        simpa [List.filterMap_cons, hfa, tblGet, List.find?, hpa] using ih hl2 h

/-- Helper: table access at a visited pair. -/
theorem tblGet_mkTable {β : Type} (f : ESide × RankType → Option β) (p : ESide × RankType)
    (hp : p ∈ sideTypePairs) : tblGet (mkTable f) p = f p :=
  tblGet_filterMap_mem sideTypePairs f p (by decide) hp

/-- Helper: table access at an unvisited pair. -/
theorem tblGet_mkTable_not_mem {β : Type} (f : ESide × RankType → Option β)
    (p : ESide × RankType) (hp : p ∉ sideTypePairs) : tblGet (mkTable f) p = none :=
  tblGet_filterMap_not_mem sideTypePairs f p hp

/-- C7: whenever, at finalize, a side's realistic rank buffer and the
corresponding expected-realistic buffer are both nonempty, the results map
adjusted_arithmetic_mean_rank to arithmetic_mean_rank / mean(expected
buffer) and adjusted_arithmetic_mean_rank_index to
1 - (arithmetic_mean_rank - 1) / (mean(expected buffer) - 1) at that side
under the realistic rank type, and these two metrics are written for no
other rank type. -/
theorem c7_adjusted_mean_rank (ks : List KParam) (st : MicroState) (ne : ℕ)
    (hne : st.numEntities = some ne) (side : ESide)
    (hr : st.getRanks side RankType.realistic ≠ [])
    (he : st.getRanks side RankType.expected_realistic ≠ [])
    (res : RBResults) (st' : MicroState)
    (hfin : microFinalize ks st = Except.ok (res, st')) :
    tblGet res.adjusted_arithmetic_mean_rank (side, RankType.realistic) =
        some (listMean (st.getRanks side RankType.realistic) /
          listMean (st.getRanks side RankType.expected_realistic)) ∧
      tblGet res.adjusted_arithmetic_mean_rank_index (side, RankType.realistic) =
        some (1 - (listMean (st.getRanks side RankType.realistic) - 1) /
          (listMean (st.getRanks side RankType.expected_realistic) - 1)) ∧
      ∀ (s : ESide) (rt : RankType), rt ≠ RankType.realistic →
        tblGet res.adjusted_arithmetic_mean_rank (s, rt) = none ∧
          tblGet res.adjusted_arithmetic_mean_rank_index (s, rt) = none := by
  unfold microFinalize at hfin
  rw [hne] at hfin
  cases hfin
  refine ⟨?_, ?_, ?_⟩
  · rw [tblGet_mkTable _ _ (by cases side <;> decide)]
    simp [microAAMR, microWritten, EXPECTED_RANKS, List.isEmpty_iff, hr, he]
  · rw [tblGet_mkTable _ _ (by cases side <;> decide)]
    simp [microAAMRI, microWritten, EXPECTED_RANKS, List.isEmpty_iff, hr, he]
  · intro s rt hrt
    cases rt with
    | realistic => exact absurd rfl hrt
    | optimistic =>
      rw [tblGet_mkTable _ _ (by cases s <;> decide), tblGet_mkTable _ _ (by cases s <;> decide)]
      exact ⟨rfl, rfl⟩
    | pessimistic =>
      rw [tblGet_mkTable _ _ (by cases s <;> decide), tblGet_mkTable _ _ (by cases s <;> decide)]
      exact ⟨rfl, rfl⟩
    | expected_realistic =>
      rw [tblGet_mkTable_not_mem _ _ (by cases s <;> decide),
        tblGet_mkTable_not_mem _ _ (by cases s <;> decide)]
      exact ⟨rfl, rfl⟩

/-- Micro accumulator with realistic head ranks of mean 2 and
expected-realistic head ranks of mean 4. -/
def exMicroC : MicroState :=
  ⟨some 5, fun t rt =>
    match t, rt with
    | Target.head, RankType.realistic => [1, 3]
    | Target.head, RankType.expected_realistic => [4, 4]
    | _, _ => []⟩

/-- The results record finalize produces on `exMicroC`. -/
def exC7Res : RBResults :=
  ⟨mkTable (microAMR exMicroC), mkTable (microCount exMicroC),
   mkTable (microHits defaultKs 5 exMicroC), mkTable (microAAMR exMicroC),
   mkTable (microAAMRI exMicroC)⟩

/-- Witness for C7: realistic mean 2 against expected mean 4 yields an
adjusted mean rank of 1/2 and an index of 2/3. -/
theorem c7_adjusted_mean_rank_witness :
    tblGet exC7Res.adjusted_arithmetic_mean_rank (ESide.head, RankType.realistic) =
        some (1 / 2) ∧
      tblGet exC7Res.adjusted_arithmetic_mean_rank_index (ESide.head, RankType.realistic) =
        some (2 / 3) := by
  have h := c7_adjusted_mean_rank defaultKs exMicroC 5 rfl ESide.head (by decide) (by decide)
    exC7Res ⟨some 5, fun _ _ => []⟩ rfl
  refine ⟨?_, ?_⟩
  · rw [h.1]
    norm_num [exMicroC, MicroState.getRanks, listMean]
  · rw [h.2.1]
    norm_num [exMicroC, MicroState.getRanks, listMean]

/-! ### Sampled evaluator construction validation -/

/-- Helper: the falsy-or is positive whenever its default is. -/
theorem pyOrNat_pos (x : Option ℕ) (d : ℕ) (hd : 0 < d) : 0 < pyOrNat x d := by
  cases x with
  | none => exact hd
  | some v =>
    by_cases hv : v = 0
    · simpa [pyOrNat, hv] using hd
    · simp only [pyOrNat, if_neg hv]
      omega

/-- Helper: the falsy-or keeps a nonzero value. -/
theorem pyOrNat_some_ne_zero (v d : ℕ) (hv : v ≠ 0) : pyOrNat (some v) d = v := by
  simp [pyOrNat, hv]

/-- Helper: tiling a pool fails exactly on an empty pool (given a positive
sample count). -/
theorem tiledPool_eq_none (n : ℕ) (p : List ℤ) (hn : 0 < n) :
    tiledPool n p = none ↔ p = [] := by
  unfold tiledPool
  by_cases hp : p = []
  · subst hp
    rw [if_pos (by simpa using hn)]
    simp
  · by_cases hlt : p.length < n
    · rw [if_pos hlt, if_neg (by simpa [List.isEmpty_iff] using hp)]
      simp [hp]
    · rw [if_neg hlt]
      simp [hp]

/-- Helper: collecting rows fails exactly when some row failed. -/
theorem sequenceRows_eq_none (l : List (Option (List ℤ))) :
    sequenceRows l = none ↔ ∃ x ∈ l, x = none := by
  induction l with
  | nil => simp [sequenceRows]
  | cons a rest ih =>
    cases a with
    | none => simp [sequenceRows]
    | some r =>
      simp only [sequenceRows, Option.map_eq_none', ih]
      simp

/-- Helper: collecting rows preserves the row count. -/
theorem sequenceRows_length : ∀ (l : List (Option (List ℤ))) (rows : List (List ℤ)),
    sequenceRows l = some rows → rows.length = l.length := by
  intro l
  induction l with
  | nil =>
    intro rows h
    cases h
    rfl
  | cons a rest ih =>
    intro rows h
    cases a with
    | none => cases h
    | some r =>
      simp only [sequenceRows] at h
      rcases Option.map_eq_some'.mp h with ⟨t, ht, rfl⟩
      simp [ih t ht]

/-- Helper: a collected table holds exactly the per-position rows. -/
theorem sequenceRows_get? : ∀ (l : List (Option (List ℤ))) (rows : List (List ℤ)),
    sequenceRows l = some rows → ∀ i : ℕ, l.get? i = (rows.get? i).map some := by
  intro l
  induction l with
  | nil =>
    intro rows h i
    cases h
    rfl
  | cons a rest ih =>
    intro rows h i
    cases a with
    | none => cases h
    | some r =>
      simp only [sequenceRows] at h
      rcases Option.map_eq_some'.mp h with ⟨t, ht, rfl⟩
      cases i with
      | zero => rfl
      | succ j => simpa using ih t ht j

/-- Helper: a successful sample_negatives produces one row per evaluation
triple. -/
theorem length_sampleNegatives (sample : List ℤ → ℕ → List ℤ)
    (evalTriples additional : List Triple) (numSamples : ℕ) (numEntities : Option ℕ)
    (side : Target) (rows : List (List ℤ))
    (h : sampleNegatives sample evalTriples additional numSamples numEntities side =
      some rows) :
    rows.length = evalTriples.length := by
  simp only [sampleNegatives] at h
  simpa using sequenceRows_length _ _ h

/-- Helper: sample_negatives fails exactly when some evaluation triple has an
empty candidate pool (given a positive sample count and entity count). -/
theorem sampleNegatives_eq_none (sample : List ℤ → ℕ → List ℤ)
    (evalTriples additional : List Triple) (numSamples ne : ℕ) (side : Target)
    (hns : 0 < numSamples) (hne : ne ≠ 0) :
    sampleNegatives sample evalTriples additional numSamples (some ne) side = none ↔
      ∃ tr ∈ evalTriples,
        candidatePool side (prepareFilterTriples evalTriples additional)
          ((List.range ne).map (fun i => (i : ℤ))) (keyOf side tr) = [] := by
  simp only [sampleNegatives]
  rw [show pyOrNat (some ne) (defaultNumEntities (prepareFilterTriples evalTriples additional))
      = ne from pyOrNat_some_ne_zero ne _ hne]
  rw [sequenceRows_eq_none]
  constructor
  · rintro ⟨x, hx, rfl⟩
    rcases List.mem_map.mp hx with ⟨tr, htr, hf⟩
    rw [Option.map_eq_none'] at hf
    exact ⟨tr, htr, (tiledPool_eq_none _ _ hns).mp hf⟩
  · rintro ⟨tr, htr, hpool⟩
    exact ⟨_, List.mem_map_of_mem _ htr,
      Option.map_eq_none'.mpr ((tiledPool_eq_none _ _ hns).mpr hpool)⟩

/-- Helper: the shape-validation outcome of the constructor tail. -/
theorem sampledFinish_isOk (factory : Factory) (negs : Target → List (List ℤ)) :
    (sampledFinish factory negs).isOk = false ↔
      ((negs Target.head).length ≠ factory.numTriples ∨
        (negs Target.tail).length ≠ factory.numTriples) := by
  by_cases h1 : (negs Target.head).length = factory.numTriples <;>
    by_cases h2 : (negs Target.tail).length = factory.numTriples <;>
      simp [sampledFinish, h1, h2, Except.isOk, Except.toBool]

/-- C8 (amended): SampledRankBasedEvaluator construction fails in exactly
these cases: exactly one of head/tail negatives is supplied; both are
supplied and a table's row count differs from the evaluation triple count;
or the negatives are generated internally and either the effective number of
negative samples — `num_negatives or 50`, so a falsy 0 means 50 — exceeds
the entity count, or some evaluation triple's candidate pool is empty (the
ZeroDivisionError in the tiling step).  The unamended claim is refuted by
`c8_counterexample`: num_negatives = 0 never exceeds the entity count, yet
construction fails. -/
theorem c8_sampled_init_validation (sample : List ℤ → ℕ → List ℤ) (factory : Factory)
    (additional : List Triple) (nn : Option ℕ) (hN tN : Option (List (List ℤ))) :
    (sampledInit sample factory additional nn hN tN).isOk = false ↔
      (hN.isSome ≠ tN.isSome ∨
        (∃ hs ts, hN = some hs ∧ tN = some ts ∧
          (hs.length ≠ factory.numTriples ∨ ts.length ≠ factory.numTriples)) ∨
        (hN = none ∧ tN = none ∧
          (pyOrNat nn 50 > factory.numEntities ∨
            ∃ side, ∃ tr ∈ factory.triples,
              candidatePool side (prepareFilterTriples factory.triples additional)
                ((List.range factory.numEntities).map (fun i => (i : ℤ)))
                (keyOf side tr) = []))) := by
  cases hN with
  | none =>
    cases tN with
    | none =>
      simp only [sampledInit]
      by_cases hc : pyOrNat nn 50 > factory.numEntities
      · simp [hc, Except.isOk, Except.toBool]
      · rw [if_neg hc]
        have hpos : 0 < pyOrNat nn 50 := pyOrNat_pos nn 50 (by norm_num)
        have hne0 : factory.numEntities ≠ 0 := by omega
        cases hH : sampleNegatives sample factory.triples additional (pyOrNat nn 50)
            (some factory.numEntities) Target.head with
        | none =>
          rcases (sampleNegatives_eq_none sample factory.triples additional
              (pyOrNat nn 50) factory.numEntities Target.head hpos hne0).mp hH with
            ⟨tr, htr, hpool⟩
          cases hT : sampleNegatives sample factory.triples additional (pyOrNat nn 50)
              (some factory.numEntities) Target.tail with
          | none =>
            show ((Except.error InitError.zeroDivision : Except InitError SampledState)).isOk
                = false ↔ _
            simp only [Except.isOk, Except.toBool]
            constructor
            · intro _
              exact Or.inr (Or.inr ⟨by trivial, by trivial,
                Or.inr ⟨Target.head, tr, htr, hpool⟩⟩)
            · intro _
              trivial
          | some tn =>
            show ((Except.error InitError.zeroDivision : Except InitError SampledState)).isOk
                = false ↔ _
            simp only [Except.isOk, Except.toBool]
            constructor
            · intro _
              exact Or.inr (Or.inr ⟨by trivial, by trivial,
                Or.inr ⟨Target.head, tr, htr, hpool⟩⟩)
            · intro _
              trivial
        | some hn =>
          cases hT : sampleNegatives sample factory.triples additional (pyOrNat nn 50)
              (some factory.numEntities) Target.tail with
          | none =>
            rcases (sampleNegatives_eq_none sample factory.triples additional
                (pyOrNat nn 50) factory.numEntities Target.tail hpos hne0).mp hT with
              ⟨tr, htr, hpool⟩
            show ((Except.error InitError.zeroDivision : Except InitError SampledState)).isOk
                = false ↔ _
            simp only [Except.isOk, Except.toBool]
            constructor
            · intro _
              exact Or.inr (Or.inr ⟨by trivial, by trivial,
                Or.inr ⟨Target.tail, tr, htr, hpool⟩⟩)
            · intro _
              trivial
          | some tn =>
            have hlenH : hn.length = factory.numTriples :=
              length_sampleNegatives sample factory.triples additional (pyOrNat nn 50)
                (some factory.numEntities) Target.head hn hH
            have hlenT : tn.length = factory.numTriples :=
              length_sampleNegatives sample factory.triples additional (pyOrNat nn 50)
                (some factory.numEntities) Target.tail tn hT
            show (sampledFinish factory
                (fun side => match side with | Target.head => hn | Target.tail => tn)).isOk
                = false ↔ _
            rw [sampledFinish_isOk]
            show (hn.length ≠ factory.numTriples ∨ tn.length ≠ factory.numTriples) ↔ _
            constructor
            · rintro (h1 | h1)
              · exact absurd hlenH h1
              · exact absurd hlenT h1
            · rintro (h1 | h1 | ⟨-, -, h1 | ⟨side, tr, htr, hpool⟩⟩)
              · exact absurd rfl h1
              · rcases h1 with ⟨hs, ts, hhs, _⟩
                cases hhs
              · exact absurd h1 hc
              · cases side with
                | head =>
                  have h2 := (sampleNegatives_eq_none sample factory.triples additional
                      (pyOrNat nn 50) factory.numEntities Target.head hpos hne0).mpr
                    ⟨tr, htr, hpool⟩
                  rw [hH] at h2
                  cases h2
                | tail =>
                  have h2 := (sampleNegatives_eq_none sample factory.triples additional
                      (pyOrNat nn 50) factory.numEntities Target.tail hpos hne0).mpr
                    ⟨tr, htr, hpool⟩
                  rw [hT] at h2
                  cases h2
    | some ts => simp [sampledInit, Except.isOk, Except.toBool]
  | some hs =>
    cases tN with
    | none => simp [sampledInit, Except.isOk, Except.toBool]
    | some ts =>
      simp only [sampledInit]
      rw [sampledFinish_isOk]
      simp

/-- C8, refutation of the unamended claim: requesting zero negative samples
with 30 entities is in none of the claim's failure cases (both tables are
absent, and 0 does not exceed 30), yet construction fails: line 490's
`num_negatives or 50` treats the falsy 0 as absent, and the effective default
of 50 exceeds the entity count. -/
theorem c8_counterexample :
    (sampledInit (fun p k => p.take k) ⟨30, []⟩ [] (some 0) none none).isOk = false ∧
      ¬((0 : ℕ) > 30) := by decide

/-! ### Negative sampling excludes true answers -/

/-- Helper: tiling keeps every element inside the original pool. -/
theorem mem_tiledPool (n : ℕ) (p q : List ℤ) (hq : tiledPool n p = some q) (x : ℤ)
    (hx : x ∈ q) : x ∈ p := by
  unfold tiledPool at hq
  split at hq
  · split at hq
    · cases hq
    · cases hq
      rcases List.mem_flatten.mp hx with ⟨l, hl, hxl⟩
      rw [List.eq_of_mem_replicate hl] at hxl
      exact hxl
  · cases hq
    exact hx

/-- C10: every entity ID in a row of the table sample_negatives produces is
drawn from the candidate pool that excludes all true answers for that
triple's grouping key across the union of the evaluation triples and the
supplied filter triples; in particular the triple's own true entity never
appears among its sampled negatives, even when no additional filter triples
are supplied.  The random draw is abstracted by any function returning
elements of the pool it is given. -/
theorem c10_sample_negatives_filtered (sample : List ℤ → ℕ → List ℤ)
    (hsample : ∀ (p : List ℤ) (k : ℕ) (x : ℤ), x ∈ sample p k → x ∈ p)
    (evalTriples additional : List Triple) (numSamples : ℕ) (numEntities : Option ℕ)
    (side : Target) (rows : List (List ℤ))
    (hrows : sampleNegatives sample evalTriples additional numSamples numEntities side =
      some rows)
    (i : ℕ) (tr : Triple) (hi : evalTriples.get? i = some tr)
    (row : List ℤ) (hrow : rows.get? i = some row)
    (e : ℤ) (he : e ∈ row) :
    (∀ f ∈ prepareFilterTriples evalTriples additional,
        keyOf side f = keyOf side tr → colVal side f ≠ e) ∧
      e ≠ colVal side tr := by
  simp only [sampleNegatives] at hrows
  have hget := sequenceRows_get? _ _ hrows i
  rw [List.get?_map, hi, hrow] at hget
  simp only [Option.map_some'] at hget
  have hfr := Option.some_inj.mp hget
  rcases Option.map_eq_some'.mp hfr with ⟨tp, htp, hrow2⟩
  have hpool : e ∈ candidatePool side (prepareFilterTriples evalTriples additional)
      ((List.range (pyOrNat numEntities
          (defaultNumEntities (prepareFilterTriples evalTriples additional)))).map
        (fun i => (i : ℤ)))
      (keyOf side tr) :=
    mem_tiledPool _ _ _ htp e (hsample _ _ _ (by rw [hrow2]; exact he))
  simp only [candidatePool, List.mem_filter, Bool.not_eq_true', List.any_eq_false,
    decide_eq_false_iff_not] at hpool
  have hall := hpool.2
  have hmain : ∀ f ∈ prepareFilterTriples evalTriples additional,
      keyOf side f = keyOf side tr → colVal side f ≠ e := by
    intro f hf hk hc
    exact hall f hf (decide_eq_true (And.intro hk hc))
  refine ⟨hmain, fun hh => ?_⟩
  have htr : tr ∈ prepareFilterTriples evalTriples additional :=
    List.mem_append_left additional (List.get?_mem hi)
  exact hmain tr htr rfl hh.symm

/-- Witness for C10 at a concrete draw: evaluating the one-triple dataset
(0, 0, 1) with entity universe {0, 1}, the sampled tail negative 0 avoids the
true tail 1. -/
theorem c10_sample_negatives_filtered_witness :
    (∀ f ∈ prepareFilterTriples [⟨0, 0, 1⟩] ([] : List Triple),
        keyOf Target.tail f = keyOf Target.tail ⟨0, 0, 1⟩ →
          colVal Target.tail f ≠ (0 : ℤ)) ∧
      (0 : ℤ) ≠ colVal Target.tail ⟨0, 0, 1⟩ :=
  c10_sample_negatives_filtered (fun p k => p.take k)
    (fun _ _ _ hx => List.mem_of_mem_take hx)
    [⟨0, 0, 1⟩] [] 1 (some 2) Target.tail [[0]] (by decide) 0 ⟨0, 0, 1⟩ rfl [0] rfl 0
    (by decide)

/-! ### Macro weighting -/

/-- Helper: summing an indicator over a duplicate-free list. -/
theorem sum_map_ite_eq {K : Type} [DecidableEq K] (a : K) (c : ℚ) :
    ∀ D : List K, D.Nodup →
      ((D.map (fun k => if a = k then c else 0)).sum = if a ∈ D then c else 0) := by
  intro D
  induction D with
  | nil => simp
  | cons d t ih =>
    intro hn
    rcases List.nodup_cons.mp hn with ⟨hd, ht⟩
    by_cases had : a = d
    · subst had
      simp [ih ht, hd]
    · simp [had, ih ht]

/-- Helper: pointwise sum of two summands over one list. -/
theorem sum_map_add {K : Type} (A B : K → ℚ) :
    ∀ D : List K, (D.map (fun k => A k + B k)).sum = (D.map A).sum + (D.map B).sum := by
  intro D
  induction D with
  | nil => simp
  | cons d t ih =>
    rw [List.map_cons, List.sum_cons, ih, List.map_cons, List.sum_cons,
      List.map_cons, List.sum_cons]
    ring

/-- Helper: filtering after a cons, summed. -/
theorem sum_map_filter_cons {β : Type} (b : β) (t : List β) (q : β → Bool) (g : β → ℚ) :
    (((b :: t).filter q).map g).sum = (if q b then g b else 0) + ((t.filter q).map g).sum := by
  by_cases h : q b <;> simp [List.filter_cons, h]

/-- Helper: a filter by a key no element carries is empty. -/
theorem filter_key_eq_nil {K β : Type} [DecidableEq K] (key : β → K) (t : List β) (a : K)
    (ha : a ∉ t.map key) : t.filter (fun x => decide (key x = a)) = [] := by
  rw [List.filter_eq_nil_iff]
  intro x hx
  simp only [decide_eq_true_eq]
  intro hk
  exact ha (hk ▸ List.mem_map_of_mem key hx)

/-- Helper: a sum over a list decomposes as the sum, over its distinct keys,
of the sums over the fiber of each key. -/
theorem sum_map_eq_sum_dedup_fibers {K β : Type} [DecidableEq K] (key : β → K) (g : β → ℚ) :
    ∀ l : List β,
      (l.map g).sum =
        ((l.map key).dedup.map
          (fun k => ((l.filter (fun x => decide (key x = k))).map g).sum)).sum := by
  intro l
  induction l with
  | nil => simp
  | cons b t ih =>
    rw [List.map_cons, List.sum_cons, ih, List.map_cons]
    have hexp : ∀ k : K, (((b :: t).filter (fun x => decide (key x = k))).map g).sum =
        (if key b = k then g b else 0) +
          ((t.filter (fun x => decide (key x = k))).map g).sum := by
      intro k
      rw [sum_map_filter_cons]
      by_cases hk : key b = k <;> simp [hk]
    have h1 : ((t.map key).dedup.map
          (fun k => (((b :: t).filter (fun x => decide (key x = k))).map g).sum)).sum =
        ((t.map key).dedup.map
          (fun k => (if key b = k then g b else 0) +
            ((t.filter (fun x => decide (key x = k))).map g).sum)).sum := by
      congr 1
      exact List.map_congr_left (fun k _ => hexp k)
    by_cases hmem : key b ∈ t.map key
    · rw [List.dedup_cons_of_mem hmem, h1, sum_map_add,
        sum_map_ite_eq (key b) (g b) _ (List.nodup_dedup _),
        if_pos (List.mem_dedup.mpr hmem)]
    · rw [List.dedup_cons_of_not_mem hmem, List.map_cons, List.sum_cons, hexp (key b),
        if_pos rfl, filter_key_eq_nil key t (key b) hmem, h1, sum_map_add,
        sum_map_ite_eq (key b) (g b) _ (List.nodup_dedup _),
        if_neg (fun hc => hmem (List.mem_dedup.mp hc))]
      simp

/-- Helper: summing a key-determined function over a fiber. -/
theorem sum_map_const_on {K : Type} (w : K → ℚ) (k : K) :
    ∀ l : List K, (∀ x ∈ l, x = k) → ((l.map w).sum = l.length * w k) := by
  intro l
  induction l with
  | nil => simp
  | cons b t ih =>
    intro hall
    have hb : b = k := hall b (List.mem_cons_self b t)
    rw [List.map_cons, List.sum_cons, ih (fun x hx => hall x (List.mem_cons_of_mem b hx)), hb,
      List.length_cons]
    push_cast
    ring

/-- Helper: summing `w(fst) * snd` over a fiber of fst. -/
theorem sum_map_mul_fst {K : Type} (w : K → ℚ) (k : K) :
    ∀ l : List (K × ℚ), (∀ p ∈ l, p.1 = k) →
      ((l.map (fun p => w p.1 * p.2)).sum = w k * ((l.map Prod.snd).sum)) := by
  intro l
  induction l with
  | nil => simp
  | cons b t ih =>
    intro hall
    have hb : b.1 = k := hall b (List.mem_cons_self b t)
    rw [List.map_cons, List.sum_cons, ih (fun x hx => hall x (List.mem_cons_of_mem b hx)),
      List.map_cons, List.sum_cons, hb]
    ring

/-- Helper: zipWith as a map over the zip. -/
theorem zipWith_eq_map_zip {α β γ : Type} (f : α → β → γ) :
    ∀ (l : List α) (l2 : List β),
      List.zipWith f l l2 = (l.zip l2).map (fun p => f p.1 p.2) := by
  intro l
  induction l with
  | nil => intro l2; rfl
  | cons a t ih =>
    intro l2
    cases l2 with
    | nil => rfl
    | cons b t2 => simp [List.zipWith_cons_cons, List.zip_cons_cons, ih]

/-- Helper: the count of a key as a filter length. -/
theorem count_eq_length_filter_decide (l : List (ℤ × ℤ)) (a : ℤ × ℤ) :
    l.count a = (l.filter (fun x => decide (x = a))).length := by
  induction l with
  | nil => rfl
  | cons b t ih => by_cases h : b = a <;> simp [List.count_cons, List.filter_cons, h, ih]

/-- Helper: the constant-one sum. -/
theorem sum_map_one {K : Type} : ∀ D : List K, (D.map (fun _ => (1 : ℚ))).sum = D.length := by
  intro D
  induction D with
  | nil => simp
  | cons d t ih =>
    simp [ih]
    ring

/-- Helper: the zip of a list with its mapped weights. -/
theorem zip_self_map {K : Type} (w : K → ℚ) : ∀ keys : List K,
    keys.zip (keys.map w) = keys.map (fun a => (a, w a)) := by
  intro keys
  induction keys with
  | nil => rfl
  | cons a t ih => simp [List.zip_cons_cons, ih]

/-- Helper: the weight sum inside one fiber is 1. -/
theorem fiber_weight_sum (keys : List (ℤ × ℤ)) (k : ℤ × ℤ) (hk : k ∈ keys) :
    ((keys.filter (fun a => decide (a = k))).map
        (fun a => ((keys.count a : ℚ))⁻¹)).sum = 1 := by
  have hall : ∀ x ∈ keys.filter (fun a => decide (a = k)), x = k := by
    intro x hx
    exact of_decide_eq_true ((List.mem_filter.mp hx).2)
  rw [sum_map_const_on _ k _ hall, ← count_eq_length_filter_decide]
  have hpos : keys.count k ≠ 0 := by
    have := List.count_pos_iff.mpr hk
    omega
  exact mul_inv_cancel₀ (show ((keys.count k : ℚ)) ≠ 0 from Nat.cast_ne_zero.mpr hpos)

/-- C5: the macro weights give every observation 1/(multiplicity of its
grouping key), so the weights within each distinct key sum to exactly 1, and
the weighted arithmetic mean rank (np.average with these weights, as
get_macro_ranking_metrics computes it) equals the simple unweighted average
of the per-key mean ranks. -/
theorem c5_macro_weights (keys : List (ℤ × ℤ)) (ranks : List ℚ)
    (hlen : keys.length = ranks.length) :
    (∀ k ∈ keys,
        (((keys.zip (macroWeights keys)).filter (fun p => decide (p.1 = k))).map
            Prod.snd).sum = 1) ∧
      weightedAverage ranks (macroWeights keys) =
        ((keys.dedup.map (fun k =>
            listMean (((keys.zip ranks).filter (fun p => decide (p.1 = k))).map
              Prod.snd))).sum) / (keys.dedup.length : ℚ) := by
  have hle : keys.length ≤ ranks.length := le_of_eq hlen
  have hw : macroWeights keys = keys.map (fun a => ((keys.count a : ℚ))⁻¹) := rfl
  constructor
  · intro k hk
    rw [hw, zip_self_map, List.filter_map, List.map_map]
    have hcomp : ((fun p : (ℤ × ℤ) × ℚ => decide (p.1 = k)) ∘
        (fun a => (a, ((keys.count a : ℚ))⁻¹))) = fun a => decide (a = k) := rfl
    have hsnd : (Prod.snd ∘ (fun a : ℤ × ℤ => (a, ((keys.count a : ℚ))⁻¹))) =
        fun a : ℤ × ℤ => ((keys.count a : ℚ))⁻¹ := rfl
    rw [hcomp, hsnd]
    exact fiber_weight_sum keys k hk
  · -- the numerator, grouped by key
    have hfst : (keys.zip ranks).map Prod.fst = keys := List.map_fst_zip keys ranks hle
    have hnum : (List.zipWith (· * ·) (macroWeights keys) ranks).sum =
        (keys.dedup.map (fun k =>
          ((keys.count k : ℚ))⁻¹ *
            ((((keys.zip ranks).filter (fun p => decide (p.1 = k))).map Prod.snd).sum))).sum := by
      rw [hw, List.zipWith_map_left, zipWith_eq_map_zip,
        sum_map_eq_sum_dedup_fibers Prod.fst _ (keys.zip ranks), hfst]
      congr 1
      refine List.map_congr_left ?_
      intro k _
      refine sum_map_mul_fst (fun a => ((keys.count a : ℚ))⁻¹) k _ ?_
      intro p hp
      exact of_decide_eq_true ((List.mem_filter.mp hp).2)
    have hden : (macroWeights keys).sum = (keys.dedup.length : ℚ) := by
      rw [hw, sum_map_eq_sum_dedup_fibers id _ keys]
      simp only [List.map_id]
      rw [show (keys.dedup.map (fun k =>
            ((keys.filter (fun x => decide (id x = k))).map
              (fun a => ((keys.count a : ℚ))⁻¹)).sum)) =
          keys.dedup.map (fun _ => (1 : ℚ)) from
        List.map_congr_left (fun k hk =>
          fiber_weight_sum keys k (List.mem_dedup.mp hk))]
      exact sum_map_one _
    rw [weightedAverage, hnum, hden]
    congr 1
    refine congrArg List.sum (List.map_congr_left ?_)
    intro k hk
    have hkmem : k ∈ keys := List.mem_dedup.mp hk
    have hcount : (((keys.zip ranks).filter (fun p => decide (p.1 = k)))).length =
        keys.count k := by
      rw [count_eq_length_filter_decide]
      have hfm := @List.filter_map ((ℤ × ℤ) × ℚ) (ℤ × ℤ) (fun a => decide (a = k))
        Prod.fst (keys.zip ranks)
      rw [hfst] at hfm
      rw [hfm, List.length_map]
      rfl
    rw [listMean, List.length_map, hcount]
    have hpos : keys.count k ≠ 0 := by
      have := List.count_pos_iff.mpr hkmem
      omega
    rw [div_eq_mul_inv]
    ring

/-- Witness for C5 on the documented example: grouping keys (0,0), (0,0),
(0,0), (1,1) with ranks 1, 2, 3, 10 — the weights inside the triple key sum
to 1, and the weighted mean is the simple average (2 + 10)/2 = 6 of the two
per-key means, not the observation-count-weighted average 4. -/
theorem c5_macro_weights_witness :
    ((([((0 : ℤ), (0 : ℤ)), (0, 0), (0, 0), (1, 1)].zip
          (macroWeights [((0 : ℤ), (0 : ℤ)), (0, 0), (0, 0), (1, 1)])).filter
        (fun p => decide (p.1 = ((0 : ℤ), (0 : ℤ))))).map Prod.snd).sum = 1 ∧
      weightedAverage [1, 2, 3, 10]
          (macroWeights [((0 : ℤ), (0 : ℤ)), (0, 0), (0, 0), (1, 1)]) = 6 := by
  have h := c5_macro_weights [((0 : ℤ), (0 : ℤ)), (0, 0), (0, 0), (1, 1)] [1, 2, 3, 10] rfl
  constructor
  · exact h.1 (0, 0) (by decide)
  · rw [h.2]
    have hd : ([((0 : ℤ), (0 : ℤ)), (0, 0), (0, 0), (1, 1)]).dedup = [(0, 0), (1, 1)] := by
      decide
    have hf1 : ((([((0 : ℤ), (0 : ℤ)), (0, 0), (0, 0), (1, 1)]).zip
          ([1, 2, 3, 10] : List ℚ)).filter
            (fun p => decide (p.1 = ((0 : ℤ), (0 : ℤ))))).map Prod.snd = [1, 2, 3] := rfl
    have hf2 : ((([((0 : ℤ), (0 : ℤ)), (0, 0), (0, 0), (1, 1)]).zip
          ([1, 2, 3, 10] : List ℚ)).filter
            (fun p => decide (p.1 = ((1 : ℤ), (1 : ℤ))))).map Prod.snd = [10] := rfl
    rw [hd]
    simp only [List.map_cons, List.map_nil, hf1, hf2]
    norm_num [listMean]

/-! ### Weighted median -/

/-- Helper: selecting every position of a list in order reproduces it. -/
theorem map_getD_range (a : List ℚ) : (List.range a.length).map (fun i => a.getD i 0) = a := by
  apply List.ext_getElem
  · simp
  · intro i h1 h2
    simp [List.getD_eq_getElem?_getD, List.getElem?_eq_getElem h2]

/-- Helper: scanning addition over constant-one weights counts up from the
initial value. -/
theorem scanl_add_replicate (n : ℕ) : ∀ c : ℚ,
    List.scanl (· + ·) c (List.replicate n 1) =
      (List.range (n + 1)).map (fun i : ℕ => c + (i : ℚ)) := by
  induction n with
  | zero =>
    intro c
    simp [List.range_succ]
  | succ m ih =>
    intro c
    rw [List.replicate_succ, List.scanl_cons, ih (c + 1), List.singleton_append]
    conv_rhs => rw [List.range_succ_eq_map]
    rw [List.map_cons, List.map_map]
    congr 1
    · norm_num
    · simp only [List.map_inj_left, Function.comp_apply, Nat.succ_eq_add_one, List.mem_range]
      intro a ha
      push_cast
      ring

/-- Helper: the cumulative sums of a zero followed by n unit weights. -/
theorem cumsum_zero_replicate (n : ℕ) :
    cumsum ((0 : ℚ) :: List.replicate n 1) = (List.range (n + 1)).map (fun i : ℕ => (i : ℚ)) := by
  rw [cumsum, List.scanl_cons, scanl_add_replicate n (0 + 0)]
  simp

/-- Helper: the last cumulative entry is the total n. -/
theorem getLast_map_range (n : ℕ) :
    (((List.range (n + 1)).map (fun i : ℕ => (i : ℚ))).getLast?).getD 0 = (n : ℚ) := by
  rw [List.range_succ, List.map_append]
  simp

/-- C3 (amended): for uniform unit weights over n ≥ 2 values, weighted_median
returns the value at the 0-based position ⌈n/2⌉ = (n+1)/2 of the ascending
arrangement of the values — one position past the first index whose
cumulative weight fraction reaches 1/2, because of the zero prepended to the
cumulative sum.  (For n = 1 the access is out of range.) -/
theorem c3_weighted_median_uniform (a : List ℚ) (h2 : 2 ≤ a.length) :
    ∃ s : List ℚ, s.Perm a ∧ s.Sorted (· ≤ ·) ∧
      weighted_median a (List.replicate a.length 1) = s.get? ((a.length + 1) / 2) := by
  have hn : 0 < a.length := by omega
  have hperm0 : (argsortIndices a).Perm (List.range a.length) :=
    List.perm_insertionSort _ _
  have hmem : ∀ i ∈ argsortIndices a, i < a.length := by
    intro i hi
    exact List.mem_range.mp (hperm0.mem_iff.mp hi)
  have hlen : (argsortIndices a).length = a.length := by
    rw [hperm0.length_eq, List.length_range]
  refine ⟨(argsortIndices a).map (fun i => a.getD i 0), ?_, ?_, ?_⟩
  · have := hperm0.map (fun i => a.getD i 0)
    rwa [map_getD_range] at this
  · have hs : List.Sorted (fun i j => a.getD i 0 ≤ a.getD j 0) (argsortIndices a) := by
      haveI : IsTotal ℕ (fun i j => a.getD i 0 ≤ a.getD j 0) := ⟨fun i j => le_total _ _⟩
      haveI : IsTrans ℕ (fun i j => a.getD i 0 ≤ a.getD j 0) := ⟨fun i j k => le_trans⟩
      exact List.sorted_insertionSort _ _
    exact List.Pairwise.map _ (fun i j h => h) hs
  · have hsw : (argsortIndices a).map (fun i => (List.replicate a.length (1 : ℚ)).getD i 0) =
        List.replicate a.length (1 : ℚ) := by
      rw [List.eq_replicate_iff]
      constructor
      · rw [List.length_map, hlen]
      · intro b hb
        rcases List.mem_map.mp hb with ⟨i, hi, hbi⟩
        rw [← hbi, List.getD_eq_getElem?_getD, List.getElem?_replicate,
          if_pos (hmem i hi)]
        rfl
    have hfind : (((List.range (a.length + 1)).map (fun i : ℕ => (i : ℚ))).map
          (fun c => c / (a.length : ℚ))).findIdx (fun c => decide ((1 : ℚ) / 2 ≤ c)) =
        (a.length + 1) / 2 := by
      have hidxlt : (a.length + 1) / 2 <
          (((List.range (a.length + 1)).map (fun i : ℕ => (i : ℚ))).map
            (fun c => c / (a.length : ℚ))).length := by
        simp only [List.length_map, List.length_range]
        omega
      rw [List.findIdx_eq hidxlt]
      constructor
      · simp only [List.getElem_map, List.getElem_range]
        rw [decide_eq_true_eq, div_le_div_iff (by norm_num) (by exact_mod_cast hn)]
        have : a.length ≤ 2 * ((a.length + 1) / 2) := by omega
        push_cast
        calc (1 : ℚ) * a.length = (a.length : ℚ) := by ring
          _ ≤ 2 * ((a.length + 1) / 2 : ℕ) := by exact_mod_cast this
          _ = ((a.length + 1) / 2 : ℕ) * 2 := by ring
      · intro j hj
        simp only [List.getElem_map, List.getElem_range]
        rw [decide_eq_false_iff_not, not_le, div_lt_div_iff (by exact_mod_cast hn) (by norm_num)]
        have : 2 * j < a.length := by omega
        push_cast
        calc ((j : ℚ)) * 2 = 2 * j := by ring
          _ < (a.length : ℚ) := by exact_mod_cast this
          _ = 1 * a.length := by ring
    simp only [weighted_median]
    rw [hsw, cumsum_zero_replicate, getLast_map_range, hfind]

/-- C3 counterexample: with uniform weights on [1, 2, 3, 4], weighted_median
returns 3 — not 2.5 — while the unweighted median (np.median) of the same
values is 5/2, so uniform weights do not reproduce the unweighted median. -/
theorem c3_counterexample :
    weighted_median [1, 2, 3, 4] [1, 1, 1, 1] = some 3 ∧ npMedian [1, 2, 3, 4] = 5 / 2 := by
  constructor
  · norm_num [weighted_median, argsortIndices, cumsum, List.insertionSort, List.orderedInsert,
      List.range, List.range.loop, List.scanl, List.findIdx, List.findIdx.go]
  · norm_num [npMedian, List.insertionSort, List.orderedInsert]

/-- Witness for the amended C3 theorem on [1, 2, 3, 4]: the sorted position
(4 + 1) / 2 = 2 is selected. -/
theorem c3_weighted_median_uniform_witness :
    ∃ s : List ℚ, s.Perm [1, 2, 3, 4] ∧ s.Sorted (· ≤ ·) ∧
      weighted_median [1, 2, 3, 4] (List.replicate 4 1) = s.get? 2 :=
  c3_weighted_median_uniform [1, 2, 3, 4] (by norm_num)

/-! ### Lookup invariants -/

/-- The invariants a successful lookup guarantees about its result. -/
structure KeyFacts (key : MetricKey) : Prop where
  name_ne : key.name ≠ []
  name_word : ∀ c ∈ key.name, isWordChar c = true
  name_fixed : pyName key.name = key.name
  hits_none : hitsPatternMatch key.name = none
  syn_fixed : (alistGet METRIC_SYNONYMS key.name).getD key.name = key.name
  k_iff : key.name = hitsAtKChars ↔ key.k ≠ none
  k_nonneg : ∀ v, key.k = some v → 0 ≤ v
  side_mem : key.side ∈ sidesAlts
  rt_mem : key.rank_type ∈ rankTypesChars
  rt_restrict : ¬(key.rank_type ≠ realisticChars ∧ key.name ∈ TYPES_REALISTIC_ONLY)

/-- Helper: facts about the lowercase table, checked by computation. -/
theorem lowerPairs_facts : ∀ p ∈ lowerPairs,
    (∀ q ∈ lowerPairs, ¬(q.1 = p.2)) ∧ isWordChar p.2 = true ∧ p.2 ≠ ' ' := by decide

/-- Helper: lowercasing is idempotent. -/
theorem pyLowerChar_idem (c : Char) : pyLowerChar (pyLowerChar c) = pyLowerChar c := by
  unfold pyLowerChar
  cases hf : lowerPairs.find? (fun p => decide (p.1 = c)) with
  | none => simp [hf]
  | some p =>
    have hmem := List.mem_of_find?_eq_some hf
    have hnone : lowerPairs.find? (fun q => decide (q.1 = p.2)) = none := by
      rw [List.find?_eq_none]
      intro q hq
      simp only [decide_eq_true_eq]
      exact (lowerPairs_facts p hmem).1 q hq
    simp [hnone]

/-- Helper: lowercasing preserves word characters. -/
theorem isWordChar_pyLowerChar (c : Char) (h : isWordChar c = true) :
    isWordChar (pyLowerChar c) = true := by
  unfold pyLowerChar
  cases hf : lowerPairs.find? (fun p => decide (p.1 = c)) with
  | none => simpa using h
  | some p =>
    have hmem := List.mem_of_find?_eq_some hf
    simpa using (lowerPairs_facts p hmem).2.1

/-- Helper: a lowercased character is a space only if the input was. -/
theorem pyLowerChar_space (c : Char) (h : pyLowerChar c = ' ') : c = ' ' := by
  by_cases hc : c = ' '
  · exact hc
  · unfold pyLowerChar at h
    cases hf : lowerPairs.find? (fun p => decide (p.1 = c)) with
    | none => rw [hf] at h; exact h
    | some p =>
      rw [hf] at h
      exact absurd h (lowerPairs_facts p (List.mem_of_find?_eq_some hf)).2.2

/-- Helper: the name normalization is idempotent. -/
theorem pyName_idem (cs : Chars) : pyName (pyName cs) = pyName cs := by
  unfold pyName
  simp only [List.map_map]
  refine List.map_congr_left ?_
  intro c _
  simp only [Function.comp_apply]
  by_cases hsp : pyLowerChar c = ' '
  · rw [hsp]
    decide
  · have h1 : replSpaceChar (pyLowerChar c) = pyLowerChar c := by
      simp only [replSpaceChar, if_neg hsp]
    rw [h1, pyLowerChar_idem, h1]

/-- Helper: normalized names keep their word characters. -/
theorem pyName_word (cs : Chars) (h : ∀ c ∈ cs, isWordChar c = true) :
    ∀ c ∈ pyName cs, isWordChar c = true := by
  intro c hc
  unfold pyName at hc
  simp only [List.map_map, List.mem_map, Function.comp_apply] at hc
  rcases hc with ⟨b, hb, hbc⟩
  have hw := isWordChar_pyLowerChar b (h b hb)
  have hwsp : isWordChar ' ' = false := by decide
  have hne : pyLowerChar b ≠ ' ' := by
    intro hh
    rw [hh] at hw
    rw [hwsp] at hw
    cases hw
  rw [← hbc, replSpaceChar, if_neg hne]
  exact hw

/-- Helper: the name group of a successful METRIC_PATTERN match. -/
theorem metricPatternMatch_name (s : Chars) (m : RegexMatch)
    (h : metricPatternMatch s = some m) :
    m.name = s.takeWhile isWordChar ∧ m.name ≠ [] := by
  unfold metricPatternMatch at h
  by_cases he : (s.takeWhile isWordChar).isEmpty
  · rw [if_pos he] at h
    cases h
  · rw [if_neg he] at h
    cases h
    exact ⟨rfl, by simpa [List.isEmpty_iff] using he⟩

/-- Helper: the side stage only returns members of SIDES. -/
theorem sideStage_ok (sideOpt : Option Chars) (side : Chars)
    (h : sideStage sideOpt = Except.ok side) : side ∈ sidesAlts := by
  have h2 : (if List.map pyLowerChar (sideOpt.getD bothChars) ∈ sidesAlts then
        Except.ok (List.map pyLowerChar (sideOpt.getD bothChars))
      else Except.error
        (LookupError.invalidSide (List.map pyLowerChar (sideOpt.getD bothChars)))) =
      Except.ok side := h
  split at h2
  · cases h2
    assumption
  · cases h2

/-- Helper: the rank-type stage only returns members of RANK_TYPES, and
enforces the realistic-only restriction. -/
theorem rtStage_ok (name : Chars) (rtOpt : Option Chars) (rt : Chars)
    (h : rtStage name rtOpt = Except.ok rt) :
    rt ∈ rankTypesChars ∧ ¬(rt ≠ realisticChars ∧ name ∈ TYPES_REALISTIC_ONLY) := by
  have h2 : (if (alistGet rankTypeSynonyms
          (List.map pyLowerChar (rtOpt.getD realisticChars))).getD
            (List.map pyLowerChar (rtOpt.getD realisticChars)) ∈ rankTypesChars then
        (if (alistGet rankTypeSynonyms
              (List.map pyLowerChar (rtOpt.getD realisticChars))).getD
                (List.map pyLowerChar (rtOpt.getD realisticChars)) ≠ realisticChars ∧
              name ∈ TYPES_REALISTIC_ONLY then
          Except.error (LookupError.realisticOnly name
            ((alistGet rankTypeSynonyms
                (List.map pyLowerChar (rtOpt.getD realisticChars))).getD
              (List.map pyLowerChar (rtOpt.getD realisticChars))))
        else Except.ok ((alistGet rankTypeSynonyms
            (List.map pyLowerChar (rtOpt.getD realisticChars))).getD
          (List.map pyLowerChar (rtOpt.getD realisticChars))))
      else Except.error (LookupError.invalidRankType
        ((alistGet rankTypeSynonyms
            (List.map pyLowerChar (rtOpt.getD realisticChars))).getD
          (List.map pyLowerChar (rtOpt.getD realisticChars))))) = Except.ok rt := h
  split at h2
  · split at h2
    · cases h2
    · cases h2
      constructor
      · assumption
      · assumption
  · cases h2

/-- Helper: facts about the metric-synonym values, checked by computation. -/
theorem metricSynonyms_facts : ∀ p ∈ METRIC_SYNONYMS,
    (p.2 ≠ [] ∧ (∀ c ∈ p.2, isWordChar c = true) ∧ pyName p.2 = p.2 ∧
      hitsPatternMatch p.2 = none ∧ alistGet METRIC_SYNONYMS p.2 = none ∧
      p.2 ≠ hitsAtKChars) := by decide

/-- Helper: facts about the literal hits_at_k name, checked by computation. -/
theorem hitsAtK_facts : hitsAtKChars ≠ [] ∧ (∀ c ∈ hitsAtKChars, isWordChar c = true) ∧
    pyName hitsAtKChars = hitsAtKChars ∧ hitsPatternMatch hitsAtKChars = none ∧
    alistGet METRIC_SYNONYMS hitsAtKChars = none := by decide

/-- Helper: what the name/k stage guarantees about its output. -/
theorem nameKStage_ok (name1 : Chars) (kreg : Option Chars) (nk : Chars × Option ℤ)
    (h : nameKStage name1 kreg = Except.ok nk)
    (h1ne : name1 ≠ []) (h1w : ∀ c ∈ name1, isWordChar c = true)
    (h1fix : pyName name1 = name1) :
    nk.1 ≠ [] ∧ (∀ c ∈ nk.1, isWordChar c = true) ∧ pyName nk.1 = nk.1 ∧
      hitsPatternMatch nk.1 = none ∧ (alistGet METRIC_SYNONYMS nk.1).getD nk.1 = nk.1 ∧
      (nk.1 = hitsAtKChars ↔ nk.2 ≠ none) ∧ (∀ v, nk.2 = some v → 0 ≤ v) := by
  unfold nameKStage at h
  cases hhit : hitsPatternMatch name1 with
  | some ds =>
    rw [hhit] at h
    simp only [if_pos rfl] at h
    have hkv : ¬((digitsVal ds : ℤ) < 0) := by
      simp only [not_lt]
      exact Int.natCast_nonneg _
    rw [if_neg hkv] at h
    cases h
    rw [hitsAtK_facts.2.2.2.2]
    refine ⟨hitsAtK_facts.1, hitsAtK_facts.2.1, hitsAtK_facts.2.2.1, hitsAtK_facts.2.2.2.1,
      rfl, ?_, ?_⟩
    · simp
    · intro v hv
      cases hv
      exact Int.natCast_nonneg _
  | none =>
    rw [hhit] at h
    by_cases hlit : name1 = hitsAtKChars
    · rw [if_pos hlit] at h
      cases hkreg : kreg with
      | none =>
        rw [hkreg] at h
        simp only at h
        rw [if_neg (by norm_num)] at h
        cases h
        rw [hlit, hitsAtK_facts.2.2.2.2]
        refine ⟨hitsAtK_facts.1, hitsAtK_facts.2.1, hitsAtK_facts.2.2.1,
          hitsAtK_facts.2.2.2.1, rfl, by simp, ?_⟩
        intro v hv
        cases hv
        norm_num
      | some ds =>
        rw [hkreg] at h
        simp only at h
        have hkv : ¬((digitsVal ds : ℤ) < 0) := by
          simp only [not_lt]
          exact Int.natCast_nonneg _
        rw [if_neg hkv] at h
        cases h
        rw [hlit, hitsAtK_facts.2.2.2.2]
        refine ⟨hitsAtK_facts.1, hitsAtK_facts.2.1, hitsAtK_facts.2.2.1,
          hitsAtK_facts.2.2.2.1, rfl, by simp, ?_⟩
        intro v hv
        cases hv
        exact Int.natCast_nonneg _
    · rw [if_neg hlit] at h
      cases hkreg : kreg with
      | some ds => rw [hkreg] at h; cases h
      | none =>
        rw [hkreg] at h
        have hnk : ((alistGet METRIC_SYNONYMS name1).getD name1, (none : Option ℤ)) = nk :=
          Except.ok.inj h
        subst hnk
        cases halist : alistGet METRIC_SYNONYMS name1 with
        | none =>
          simp only [halist, Option.getD_none]
          refine ⟨h1ne, h1w, h1fix, hhit, ?_, by simp [hlit], by simp⟩
          trivial
        | some v =>
          have hqfacts : ∃ q ∈ METRIC_SYNONYMS, q.2 = v := by
            unfold alistGet at halist
            cases hfind : METRIC_SYNONYMS.find? (fun p => decide (p.1 = name1)) with
            | none => rw [hfind] at halist; cases halist
            | some q =>
              rw [hfind] at halist
              exact ⟨q, List.mem_of_find?_eq_some hfind, by injection halist⟩
          rcases hqfacts with ⟨q, hqmem, hqv⟩
          have hf := metricSynonyms_facts q hqmem
          rw [hqv] at hf
          simp only [halist, Option.getD_some]
          refine ⟨hf.1, hf.2.1, hf.2.2.1, hf.2.2.2.1, ?_, by simp [hf.2.2.2.2.2], by simp⟩
          simp [hf.2.2.2.2.1]

/-- Helper: the full inversion of a successful lookup. -/
theorem lookup_ok_facts (s : Chars) (key : MetricKey)
    (h : MetricKey.lookup s = Except.ok key) : KeyFacts key := by
  unfold MetricKey.lookup at h
  cases hm : metricPatternMatch s with
  | none => rw [hm] at h; cases h
  | some m =>
    rw [hm] at h
    have h2 : (if m.name.isEmpty then
          (Except.error LookupError.noMetricName : Except LookupError MetricKey)
        else
          match nameKStage (pyName m.name) m.k with
          | Except.error e => Except.error e
          | Except.ok nk =>
            match sideStage m.side with
            | Except.error e => Except.error e
            | Except.ok side =>
              match rtStage nk.1 m.rtype with
              | Except.error e => Except.error e
              | Except.ok rt => Except.ok ⟨nk.1, side, rt, nk.2⟩) = Except.ok key := h
    clear h
    by_cases hempty : m.name.isEmpty
    · rw [if_pos hempty] at h2; cases h2
    rw [if_neg hempty] at h2
    rename' h2 => h
    obtain ⟨hname_eq, hname_ne⟩ := metricPatternMatch_name s m hm
    have hraww : ∀ c ∈ m.name, isWordChar c = true := by
      intro c hc
      rw [hname_eq] at hc
      exact List.mem_takeWhile_imp hc
    have h1ne : pyName m.name ≠ [] := by
      intro hh
      apply hname_ne
      have hlength := congrArg List.length hh
      simp only [pyName, List.length_map, List.length_nil] at hlength
      exact List.length_eq_zero.mp hlength
    have h1w := pyName_word m.name hraww
    have h1fix := pyName_idem m.name
    cases hnk : nameKStage (pyName m.name) m.k with
    | error e => rw [hnk] at h; cases h
    | ok nk =>
      rw [hnk] at h
      cases hside : sideStage m.side with
      | error e => rw [hside] at h; cases h
      | ok side =>
        rw [hside] at h
        have h3 : (match rtStage nk.1 m.rtype with
            | Except.error e => (Except.error e : Except LookupError MetricKey)
            | Except.ok rt => Except.ok ⟨nk.1, side, rt, nk.2⟩) = Except.ok key := h
        clear h
        cases hrt : rtStage nk.1 m.rtype with
        | error e => rw [hrt] at h3; cases h3
        | ok rt =>
          rw [hrt] at h3
          have hkey : (⟨nk.1, side, rt, nk.2⟩ : MetricKey) = key := Except.ok.inj h3
          subst hkey
          obtain ⟨f1, f2, f3, f4, f5, f6, f7⟩ :=
            nameKStage_ok (pyName m.name) m.k nk hnk h1ne h1w h1fix
          obtain ⟨g1, g2⟩ := rtStage_ok nk.1 m.rtype rt hrt
          exact ⟨f1, f2, f3, f4, f5, f6, f7, sideStage_ok m.side side hside, g1, g2⟩

/-- C9: every MetricKey returned by lookup satisfies the invariant that k is
present (non-None) iff the name is hits_at_k, and side and rank_type always
hold a value from their closed sets ({head, tail, both} and the extended
rank-type set), never left unset. -/
theorem c9_metric_key_invariant (s : Chars) (key : MetricKey)
    (h : MetricKey.lookup s = Except.ok key) :
    ((key.k ≠ none) ↔ key.name = hitsAtKChars) ∧
      key.side ∈ sidesAlts ∧
      key.rank_type ∈
        [optimisticChars, pessimisticChars, realisticChars, expectedRealisticChars] := by
  have f := lookup_ok_facts s key h
  refine ⟨f.k_iff.symm, f.side_mem, ?_⟩
  have hm3 := f.rt_mem
  simp only [rankTypesChars, List.mem_cons, List.not_mem_nil, or_false] at hm3
  rcases hm3 with h1 | h1 | h1 <;> rw [h1] <;> decide

/-- Witness for C9 at the concrete lookup of hits@5. -/
theorem c9_metric_key_invariant_witness :
    ((some (5 : ℤ) ≠ none) ↔ hitsAtKChars = hitsAtKChars) ∧
      bothChars ∈ sidesAlts ∧
      realisticChars ∈
        [optimisticChars, pessimisticChars, realisticChars, expectedRealisticChars] :=
  c9_metric_key_invariant (chars (r"hits@5"))
    ⟨hitsAtKChars, bothChars, realisticChars, some 5⟩ (by decide)

/-! ### What lookup accepts and rejects -/

/-- C4 counterexample: "mr.garbage" does not match the documented grammar as
a whole string, yet lookup accepts it, silently ignoring ".garbage"; while
"mr.5" does match the grammar (a name with a k component), yet lookup raises
the internal assertion instead of returning a MetricKey. -/
theorem c4_counterexample :
    matchesGrammarFull (chars (r"mr.garbage")) = false ∧
      MetricKey.lookup (chars (r"mr.garbage")) =
        Except.ok ⟨ARITHMETIC_MEAN_RANK, bothChars, realisticChars, none⟩ ∧
      matchesGrammarFull (chars (r"mr.5")) = true ∧
      MetricKey.lookup (chars (r"mr.5")) = Except.error LookupError.assertionError :=
  ⟨by decide, by decide, by decide, by decide⟩

/-- Helper: the name/k stage never raises the invalid-name error. -/
theorem nameKStage_not_invalid (name1 : Chars) (kreg : Option Chars) (s : Chars)
    (h : nameKStage name1 kreg = Except.error (LookupError.invalidMetricName s)) : False := by
  unfold nameKStage at h
  cases hhit : hitsPatternMatch name1 with
  | some ds =>
    rw [hhit] at h
    simp only [if_pos rfl] at h
    by_cases hkv : ((digitsVal ds : ℤ)) < 0
    · rw [if_pos hkv] at h
      simp at h
    · rw [if_neg hkv] at h
      simp at h
  | none =>
    rw [hhit] at h
    by_cases hlit : name1 = hitsAtKChars
    · rw [if_pos hlit] at h
      cases hkreg : kreg with
      | none =>
        rw [hkreg] at h
        simp only at h
        rw [if_neg (by norm_num)] at h
        simp at h
      | some ds =>
        rw [hkreg] at h
        simp only at h
        by_cases hkv : ((digitsVal ds : ℤ)) < 0
        · rw [if_pos hkv] at h
          simp at h
        · rw [if_neg hkv] at h
          simp at h
    · rw [if_neg hlit] at h
      cases hkreg : kreg with
      | some ds => rw [hkreg] at h; simp at h
      | none => rw [hkreg] at h; simp at h

/-- Helper: the side stage never raises the invalid-name error. -/
theorem sideStage_not_invalid (sideOpt : Option Chars) (s : Chars)
    (h : sideStage sideOpt = Except.error (LookupError.invalidMetricName s)) : False := by
  have h2 : (if List.map pyLowerChar (sideOpt.getD bothChars) ∈ sidesAlts then
        Except.ok (List.map pyLowerChar (sideOpt.getD bothChars))
      else Except.error
        (LookupError.invalidSide (List.map pyLowerChar (sideOpt.getD bothChars)))) =
      Except.error (LookupError.invalidMetricName s) := h
  split at h2 <;> simp_all

/-- Helper: the rank-type stage never raises the invalid-name error. -/
theorem rtStage_not_invalid (name : Chars) (rtOpt : Option Chars) (s : Chars)
    (h : rtStage name rtOpt = Except.error (LookupError.invalidMetricName s)) : False := by
  have h2 : (if (alistGet rankTypeSynonyms
          (List.map pyLowerChar (rtOpt.getD realisticChars))).getD
            (List.map pyLowerChar (rtOpt.getD realisticChars)) ∈ rankTypesChars then
        (if (alistGet rankTypeSynonyms
              (List.map pyLowerChar (rtOpt.getD realisticChars))).getD
                (List.map pyLowerChar (rtOpt.getD realisticChars)) ≠ realisticChars ∧
              name ∈ TYPES_REALISTIC_ONLY then
          Except.error (LookupError.realisticOnly name
            ((alistGet rankTypeSynonyms
                (List.map pyLowerChar (rtOpt.getD realisticChars))).getD
              (List.map pyLowerChar (rtOpt.getD realisticChars))))
        else Except.ok ((alistGet rankTypeSynonyms
            (List.map pyLowerChar (rtOpt.getD realisticChars))).getD
          (List.map pyLowerChar (rtOpt.getD realisticChars))))
      else Except.error (LookupError.invalidRankType
        ((alistGet rankTypeSynonyms
            (List.map pyLowerChar (rtOpt.getD realisticChars))).getD
          (List.map pyLowerChar (rtOpt.getD realisticChars))))) =
      Except.error (LookupError.invalidMetricName s) := h
  split at h2
  · split at h2 <;> simp_all
  · simp_all

/-- C4 (amended): lookup applies METRIC_PATTERN to a prefix of the input: it
fails with the invalid-specification error naming the input exactly when the
input does not begin with a word/@ character; when it does begin with one,
the match always succeeds on the longest valid prefix and any unmatched
trailing text is silently ignored (for instance, lookup("mr.garbage") is
lookup("mr")), with the later stages possibly failing for their own reasons
(the internal k assertion, side/rank-type validation). -/
theorem c4_lookup_prefix_amended :
    (∀ s : Chars, MetricKey.lookup s = Except.error (LookupError.invalidMetricName s) ↔
      (s.takeWhile isWordChar).isEmpty = true) ∧
      MetricKey.lookup (chars (r"mr.garbage")) = MetricKey.lookup (chars (r"mr")) := by
  constructor
  · intro s
    constructor
    · intro h
      by_contra hne
      have hm : metricPatternMatch s = some ⟨s.takeWhile isWordChar,
          (tryGroup sidesAlts (s.drop (s.takeWhile isWordChar).length)).1,
          (tryGroup typeAlts
            (tryGroup sidesAlts (s.drop (s.takeWhile isWordChar).length)).2).1,
          (tryK (tryGroup typeAlts
            (tryGroup sidesAlts (s.drop (s.takeWhile isWordChar).length)).2).2).1⟩ := by
        unfold metricPatternMatch
        rw [if_neg hne]
      unfold MetricKey.lookup at h
      rw [hm] at h
      have h2 : (if (s.takeWhile isWordChar).isEmpty then
            (Except.error LookupError.noMetricName : Except LookupError MetricKey)
          else
            match nameKStage (pyName (s.takeWhile isWordChar))
                (tryK (tryGroup typeAlts
                  (tryGroup sidesAlts (s.drop (s.takeWhile isWordChar).length)).2).2).1 with
            | Except.error e => Except.error e
            | Except.ok nk =>
              match sideStage
                  (tryGroup sidesAlts (s.drop (s.takeWhile isWordChar).length)).1 with
              | Except.error e => Except.error e
              | Except.ok side =>
                match rtStage nk.1 (tryGroup typeAlts
                    (tryGroup sidesAlts (s.drop (s.takeWhile isWordChar).length)).2).1 with
                | Except.error e => Except.error e
                | Except.ok rt => Except.ok ⟨nk.1, side, rt, nk.2⟩) =
          Except.error (LookupError.invalidMetricName s) := h
      clear h
      rw [if_neg hne] at h2
      cases hnk : nameKStage (pyName (s.takeWhile isWordChar))
          (tryK (tryGroup typeAlts
            (tryGroup sidesAlts (s.drop (s.takeWhile isWordChar).length)).2).2).1 with
      | error e =>
        rw [hnk] at h2
        simp only [Except.error.injEq] at h2
        exact nameKStage_not_invalid _ _ s (h2 ▸ hnk)
      | ok nk =>
        rw [hnk] at h2
        cases hside : sideStage
            (tryGroup sidesAlts (s.drop (s.takeWhile isWordChar).length)).1 with
        | error e =>
          rw [hside] at h2
          simp only [Except.error.injEq] at h2
          exact sideStage_not_invalid _ s (h2 ▸ hside)
        | ok side =>
          rw [hside] at h2
          have h3 : (match rtStage nk.1 (tryGroup typeAlts
                (tryGroup sidesAlts (s.drop (s.takeWhile isWordChar).length)).2).1 with
              | Except.error e => (Except.error e : Except LookupError MetricKey)
              | Except.ok rt => Except.ok ⟨nk.1, side, rt, nk.2⟩) =
              Except.error (LookupError.invalidMetricName s) := h2
          clear h2
          cases hrt : rtStage nk.1 (tryGroup typeAlts
              (tryGroup sidesAlts (s.drop (s.takeWhile isWordChar).length)).2).1 with
          | error e =>
            rw [hrt] at h3
            simp only [Except.error.injEq] at h3
            exact rtStage_not_invalid _ _ s (h3 ▸ hrt)
          | ok rt =>
            rw [hrt] at h3
            cases h3
    · intro hempty
      unfold MetricKey.lookup
      have hm : metricPatternMatch s = none := by
        unfold metricPatternMatch
        rw [if_pos hempty]
      rw [hm]
  · decide

/-! ### Normalization roundtrip -/

/-- Helper: a list is a Boolean prefix of itself followed by anything. -/
theorem isPrefixOf_self_append (l r : Chars) : l.isPrefixOf (l ++ r) = true := by
  induction l with
  | nil => simp [List.isPrefixOf]
  | cons a t ih => simp [List.isPrefixOf, ih]

/-- Helper: digit values come back from digit characters. -/
theorem digitVal_digitChar : ∀ d, d < 10 → digitVal (digitChar d) = d := by decide

/-- Helper: digit characters are digits. -/
theorem isDigit_digitChar : ∀ d, d < 10 → (digitChar d).isDigit = true := by decide

/-- Helper: evaluating an int over an appended digit. -/
theorem digitsVal_append (l : Chars) (c : Char) :
    digitsVal (l ++ [c]) = 10 * digitsVal l + digitVal c := by
  unfold digitsVal
  rw [List.foldl_append]
  rfl

/-- Helper: rendering then parsing a natural number is the identity. -/
theorem digitsVal_natDigitCharsAux : ∀ fuel n, n ≤ fuel →
    digitsVal (natDigitCharsAux fuel n) = n := by
  intro fuel
  induction fuel with
  | zero =>
    intro n hn
    interval_cases n
    rfl
  | succ f ih =>
    intro n hn
    cases n with
    | zero => rfl
    | succ m =>
      show digitsVal (natDigitCharsAux f ((m + 1) / 10) ++ [digitChar ((m + 1) % 10)]) = m + 1
      have hdiv : (m + 1) / 10 < m + 1 := Nat.div_lt_self (by omega) (by norm_num)
      rw [digitsVal_append, ih ((m + 1) / 10) (by omega),
        digitVal_digitChar _ (Nat.mod_lt _ (by norm_num))]
      omega

/-- Helper: the decimal rendering round-trips. -/
theorem digitsVal_natDigitChars (n : ℕ) : digitsVal (natDigitChars n) = n :=
  digitsVal_natDigitCharsAux n n le_rfl

/-- Helper: every rendered character is a digit. -/
theorem natDigitCharsAux_digits : ∀ fuel n, ∀ c ∈ natDigitCharsAux fuel n, c.isDigit = true := by
  intro fuel
  induction fuel with
  | zero =>
    intro n c hc
    cases hc
  | succ f ih =>
    intro n c hc
    cases n with
    | zero => cases hc
    | succ m =>
      rw [show natDigitCharsAux (f + 1) (m + 1) =
          natDigitCharsAux f ((m + 1) / 10) ++ [digitChar ((m + 1) % 10)] from rfl] at hc
      rcases List.mem_append.mp hc with hc2 | hc2
      · exact ih _ c hc2
      · rw [List.mem_singleton.mp hc2]
        exact isDigit_digitChar _ (Nat.mod_lt _ (by norm_num))

/-- Helper: positive numbers render to a nonempty digit string. -/
theorem natDigitChars_ne_nil (n : ℕ) (hn : n ≠ 0) : natDigitChars n ≠ [] := by
  cases n with
  | zero => exact absurd rfl hn
  | succ m =>
    show natDigitCharsAux m ((m + 1) / 10) ++ [digitChar ((m + 1) % 10)] ≠ []
    simp

/-- Helper: takeWhile keeps a list all of whose elements satisfy the test. -/
theorem takeWhile_all {p : Char → Bool} : ∀ l : Chars, (∀ c ∈ l, p c = true) →
    l.takeWhile p = l := by
  intro l
  induction l with
  | nil => intro _; rfl
  | cons a t ih =>
    intro hall
    rw [List.takeWhile_cons, if_pos (hall a (List.mem_cons_self a t)),
      ih (fun c hc => hall c (List.mem_cons_of_mem a hc))]

/-- Helper: a word-character run followed by a dot parses back as the name. -/
theorem takeWhile_word_append (name rest : Chars) (hw : ∀ c ∈ name, isWordChar c = true) :
    (name ++ '.' :: rest).takeWhile isWordChar = name := by
  induction name with
  | nil => rfl
  | cons a t ih =>
    rw [List.cons_append, List.takeWhile_cons,
      if_pos (hw a (List.mem_cons_self a t)),
      ih (fun c hc => hw c (List.mem_cons_of_mem a hc))]

/-- Helper: the side group parses any SIDES member back out. -/
theorem tryGroup_sides (side : Chars) (hs : side ∈ sidesAlts) (rest : Chars) :
    tryGroup sidesAlts ('.' :: (side ++ rest)) = (some side, rest) := by
  have hcases : side = headChars ∨ side = tailChars ∨ side = bothChars := by
    simpa [sidesAlts] using hs
  rcases hcases with rfl | rfl | rfl
  · have hfind : sidesAlts.find? (fun alt => alt.isPrefixOf (headChars ++ rest)) =
        some headChars := by
      rw [show sidesAlts = headChars :: tailChars :: [bothChars] from rfl]
      exact List.find?_cons_of_pos _ (isPrefixOf_self_append headChars rest)
    show (match sidesAlts.find? (fun alt => alt.isPrefixOf (headChars ++ rest)) with
      | some alt => (some alt, (headChars ++ rest).drop alt.length)
      | none => (none, '.' :: (headChars ++ rest))) = (some headChars, rest)
    rw [hfind]
    show (some headChars, (headChars ++ rest).drop headChars.length) = (some headChars, rest)
    rw [List.drop_left]
  · have hfind : sidesAlts.find? (fun alt => alt.isPrefixOf (tailChars ++ rest)) =
        some tailChars := by
      rw [show sidesAlts = headChars :: tailChars :: [bothChars] from rfl]
      rw [@List.find?_cons_of_neg Chars (fun alt => alt.isPrefixOf (tailChars ++ rest))
        headChars ([tailChars, bothChars]) (by simp [headChars, tailChars, List.isPrefixOf])]
      exact List.find?_cons_of_pos _ (isPrefixOf_self_append tailChars rest)
    show (match sidesAlts.find? (fun alt => alt.isPrefixOf (tailChars ++ rest)) with
      | some alt => (some alt, (tailChars ++ rest).drop alt.length)
      | none => (none, '.' :: (tailChars ++ rest))) = (some tailChars, rest)
    rw [hfind]
    show (some tailChars, (tailChars ++ rest).drop tailChars.length) = (some tailChars, rest)
    rw [List.drop_left]
  · have hfind : sidesAlts.find? (fun alt => alt.isPrefixOf (bothChars ++ rest)) =
        some bothChars := by
      rw [show sidesAlts = headChars :: tailChars :: [bothChars] from rfl]
      rw [@List.find?_cons_of_neg Chars (fun alt => alt.isPrefixOf (bothChars ++ rest))
        headChars ([tailChars, bothChars]) (by simp [headChars, bothChars, List.isPrefixOf])]
      rw [@List.find?_cons_of_neg Chars (fun alt => alt.isPrefixOf (bothChars ++ rest))
        tailChars ([bothChars]) (by simp [tailChars, bothChars, List.isPrefixOf])]
      exact List.find?_cons_of_pos _ (isPrefixOf_self_append bothChars rest)
    show (match sidesAlts.find? (fun alt => alt.isPrefixOf (bothChars ++ rest)) with
      | some alt => (some alt, (bothChars ++ rest).drop alt.length)
      | none => (none, '.' :: (bothChars ++ rest))) = (some bothChars, rest)
    rw [hfind]
    show (some bothChars, (bothChars ++ rest).drop bothChars.length) = (some bothChars, rest)
    rw [List.drop_left]

/-- Helper: the rank-type group parses any RANK_TYPES member back out. -/
theorem tryGroup_types (rt : Chars) (hr : rt ∈ rankTypesChars) (rest : Chars) :
    tryGroup typeAlts ('.' :: (rt ++ rest)) = (some rt, rest) := by
  have hcases : rt = optimisticChars ∨ rt = realisticChars ∨ rt = pessimisticChars := by
    simpa [rankTypesChars] using hr
  rcases hcases with rfl | rfl | rfl
  · have hfind : typeAlts.find? (fun alt => alt.isPrefixOf (optimisticChars ++ rest)) =
        some optimisticChars := by
      rw [show typeAlts = optimisticChars :: realisticChars :: pessimisticChars :: rankTypeSynonyms.map Prod.fst from rfl]
      exact List.find?_cons_of_pos _ (isPrefixOf_self_append optimisticChars rest)
    show (match typeAlts.find? (fun alt => alt.isPrefixOf (optimisticChars ++ rest)) with
      | some alt => (some alt, (optimisticChars ++ rest).drop alt.length)
      | none => (none, '.' :: (optimisticChars ++ rest))) = (some optimisticChars, rest)
    rw [hfind]
    show (some optimisticChars, (optimisticChars ++ rest).drop optimisticChars.length) = (some optimisticChars, rest)
    rw [List.drop_left]
  · have hfind : typeAlts.find? (fun alt => alt.isPrefixOf (realisticChars ++ rest)) =
        some realisticChars := by
      rw [show typeAlts = optimisticChars :: realisticChars :: pessimisticChars :: rankTypeSynonyms.map Prod.fst from rfl]
      rw [@List.find?_cons_of_neg Chars (fun alt => alt.isPrefixOf (realisticChars ++ rest))
        optimisticChars (realisticChars :: pessimisticChars :: rankTypeSynonyms.map Prod.fst) (by simp [optimisticChars, realisticChars, List.isPrefixOf])]
      exact List.find?_cons_of_pos _ (isPrefixOf_self_append realisticChars rest)
    show (match typeAlts.find? (fun alt => alt.isPrefixOf (realisticChars ++ rest)) with
      | some alt => (some alt, (realisticChars ++ rest).drop alt.length)
      | none => (none, '.' :: (realisticChars ++ rest))) = (some realisticChars, rest)
    rw [hfind]
    show (some realisticChars, (realisticChars ++ rest).drop realisticChars.length) = (some realisticChars, rest)
    rw [List.drop_left]
  · have hfind : typeAlts.find? (fun alt => alt.isPrefixOf (pessimisticChars ++ rest)) =
        some pessimisticChars := by
      rw [show typeAlts = optimisticChars :: realisticChars :: pessimisticChars :: rankTypeSynonyms.map Prod.fst from rfl]
      rw [@List.find?_cons_of_neg Chars (fun alt => alt.isPrefixOf (pessimisticChars ++ rest))
        optimisticChars (realisticChars :: pessimisticChars :: rankTypeSynonyms.map Prod.fst) (by simp [optimisticChars, pessimisticChars, List.isPrefixOf])]
      rw [@List.find?_cons_of_neg Chars (fun alt => alt.isPrefixOf (pessimisticChars ++ rest))
        realisticChars (pessimisticChars :: rankTypeSynonyms.map Prod.fst) (by simp [realisticChars, pessimisticChars, List.isPrefixOf])]
      exact List.find?_cons_of_pos _ (isPrefixOf_self_append pessimisticChars rest)
    show (match typeAlts.find? (fun alt => alt.isPrefixOf (pessimisticChars ++ rest)) with
      | some alt => (some alt, (pessimisticChars ++ rest).drop alt.length)
      | none => (none, '.' :: (pessimisticChars ++ rest))) = (some pessimisticChars, rest)
    rw [hfind]
    show (some pessimisticChars, (pessimisticChars ++ rest).drop pessimisticChars.length) = (some pessimisticChars, rest)
    rw [List.drop_left]

/-- Helper: the k group consumes an entire digit run. -/
theorem tryK_digits (n : ℕ) (hn : n ≠ 0) :
    tryK ('.' :: natDigitChars n) = (some (natDigitChars n), []) := by
  show (let ds := (natDigitChars n).takeWhile Char.isDigit
    if ds.isEmpty then (none, '.' :: natDigitChars n)
    else (some ds, (natDigitChars n).drop ds.length)) = (some (natDigitChars n), [])
  rw [show (natDigitChars n).takeWhile Char.isDigit = natDigitChars n from
    takeWhile_all _ (natDigitCharsAux_digits n n)]
  rw [if_neg (by simpa [List.isEmpty_iff] using natDigitChars_ne_nil n hn)]
  rw [List.drop_length]

/-- Helper: lowercasing fixes every SIDES member (checked by computation). -/
theorem sides_lower : ∀ sd ∈ sidesAlts, List.map pyLowerChar sd = sd := by decide

/-- Helper: lowercasing fixes every RANK_TYPES member, and no canonical rank
type is a rank-type synonym (checked by computation). -/
theorem ranktypes_facts2 : ∀ rt ∈ rankTypesChars,
    List.map pyLowerChar rt = rt ∧ alistGet rankTypeSynonyms rt = none := by decide

/-- Helper: METRIC_PATTERN on a well-formed name.side.rank_type[.k] string
recovers the four components. -/
theorem metricPatternMatch_parts (name side rt kpart : Chars) (kc : Option Chars)
    (hn : name ≠ []) (hw : ∀ c ∈ name, isWordChar c = true)
    (hs : side ∈ sidesAlts) (hr : rt ∈ rankTypesChars)
    (hkp : tryK kpart = (kc, [])) :
    metricPatternMatch (name ++ '.' :: (side ++ '.' :: (rt ++ kpart))) =
      some ⟨name, some side, some rt, kc⟩ := by
  unfold metricPatternMatch
  rw [takeWhile_word_append _ _ hw]
  rw [if_neg (by simpa [List.isEmpty_iff] using hn)]
  simp only [List.drop_left, tryGroup_sides side hs, tryGroup_types rt hr, hkp]

/-- Helper: the printed form of a key without k. -/
theorem toChars_shape_none (key : MetricKey) (hkk : key.k = none) :
    MetricKey.toChars key =
      key.name ++ '.' :: (key.side ++ '.' :: (key.rank_type ++ [])) := by
  show key.name ++ '.' :: (key.side ++ '.' :: (key.rank_type ++
      (match key.k with
       | some kv => if kv = 0 then [] else '.' :: intChars kv
       | none => []))) = _
  rw [hkk]

/-- Helper: the printed form of a key with positive k. -/
theorem toChars_shape_some (key : MetricKey) (kv : ℤ) (hkk : key.k = some kv)
    (hpos : 0 < kv) :
    MetricKey.toChars key =
      key.name ++ '.' :: (key.side ++ '.' ::
        (key.rank_type ++ '.' :: natDigitChars kv.toNat)) := by
  show key.name ++ '.' :: (key.side ++ '.' :: (key.rank_type ++
      (match key.k with
       | some kv => if kv = 0 then [] else '.' :: intChars kv
       | none => []))) = _
  rw [hkk]
  show key.name ++ '.' :: (key.side ++ '.' :: (key.rank_type ++
      (if kv = 0 then [] else '.' :: intChars kv))) = _
  rw [if_neg (by omega : ¬kv = 0)]
  rw [show intChars kv = natDigitChars kv.toNat from by
    rw [intChars, if_neg (by omega : ¬kv < 0)]]

/-- Helper: re-running the name/k stage on a printed hits_at_k key. -/
theorem nameKStage_roundtrip_hits (kv : ℤ) (hpos : 0 < kv) :
    nameKStage hitsAtKChars (some (natDigitChars kv.toNat)) =
      Except.ok (hitsAtKChars, some kv) := by
  have hparse : (digitsVal (natDigitChars kv.toNat) : ℤ) = kv := by
    rw [digitsVal_natDigitChars]
    exact Int.toNat_of_nonneg (by omega)
  simp only [nameKStage, hitsAtK_facts.2.2.2.1]
  simp only [if_true]
  simp only [hparse]
  rw [if_neg (by omega : ¬kv < 0)]
  simp [hitsAtK_facts.2.2.2.2]

/-- Helper: re-running the name/k stage on a printed non-hits key. -/
theorem nameKStage_roundtrip_nonhits (name : Chars) (hlit : name ≠ hitsAtKChars)
    (hhits : hitsPatternMatch name = none)
    (hsyn : (alistGet METRIC_SYNONYMS name).getD name = name) :
    nameKStage name none = Except.ok (name, none) := by
  simp only [nameKStage, hhits]
  rw [if_neg hlit]
  simp [hsyn]

/-- Helper: re-running the side stage on a printed side. -/
theorem sideStage_roundtrip (side : Chars) (hs : side ∈ sidesAlts) :
    sideStage (some side) = Except.ok side := by
  show (if List.map pyLowerChar ((some side).getD bothChars) ∈ sidesAlts then
      Except.ok (List.map pyLowerChar ((some side).getD bothChars))
    else Except.error
      (LookupError.invalidSide (List.map pyLowerChar ((some side).getD bothChars)))) =
    Except.ok side
  rw [show List.map pyLowerChar ((some side).getD bothChars) = side from sides_lower side hs]
  rw [if_pos hs]

/-- Helper: re-running the rank-type stage on a printed rank type. -/
theorem rtStage_roundtrip (name rt : Chars) (hr : rt ∈ rankTypesChars)
    (hres : ¬(rt ≠ realisticChars ∧ name ∈ TYPES_REALISTIC_ONLY)) :
    rtStage name (some rt) = Except.ok rt := by
  show (if (alistGet rankTypeSynonyms
        (List.map pyLowerChar ((some rt).getD realisticChars))).getD
          (List.map pyLowerChar ((some rt).getD realisticChars)) ∈ rankTypesChars then
      (if (alistGet rankTypeSynonyms
            (List.map pyLowerChar ((some rt).getD realisticChars))).getD
              (List.map pyLowerChar ((some rt).getD realisticChars)) ≠ realisticChars ∧
            name ∈ TYPES_REALISTIC_ONLY then
        Except.error (LookupError.realisticOnly name
          ((alistGet rankTypeSynonyms
              (List.map pyLowerChar ((some rt).getD realisticChars))).getD
            (List.map pyLowerChar ((some rt).getD realisticChars))))
      else Except.ok ((alistGet rankTypeSynonyms
          (List.map pyLowerChar ((some rt).getD realisticChars))).getD
        (List.map pyLowerChar ((some rt).getD realisticChars))))
    else Except.error (LookupError.invalidRankType
      ((alistGet rankTypeSynonyms
          (List.map pyLowerChar ((some rt).getD realisticChars))).getD
        (List.map pyLowerChar ((some rt).getD realisticChars))))) = Except.ok rt
  rw [show List.map pyLowerChar ((some rt).getD realisticChars) = rt from
    (ranktypes_facts2 rt hr).1]
  rw [(ranktypes_facts2 rt hr).2]
  simp only [Option.getD_none]
  rw [if_pos hr, if_neg hres]

/-- Helper: looking the printed form of a valid key back up returns the key
itself, provided k is not the falsy value 0 (which `__str__` drops). -/
theorem lookup_toChars (key : MetricKey) (hf : KeyFacts key) (hk0 : key.k ≠ some 0) :
    MetricKey.lookup (MetricKey.toChars key) = Except.ok key := by
  cases hkk : key.k with
  | none =>
    have hm : metricPatternMatch (MetricKey.toChars key) =
        some ⟨key.name, some key.side, some key.rank_type, none⟩ := by
      rw [toChars_shape_none key hkk]
      exact metricPatternMatch_parts key.name key.side key.rank_type [] none
        hf.name_ne hf.name_word hf.side_mem hf.rt_mem rfl
    have hlit : key.name ≠ hitsAtKChars := by
      intro hh
      exact (hf.k_iff.mp hh) hkk
    have hnk : nameKStage (pyName key.name) none = Except.ok (key.name, none) := by
      rw [hf.name_fixed]
      exact nameKStage_roundtrip_nonhits key.name hlit hf.hits_none hf.syn_fixed
    unfold MetricKey.lookup
    rw [hm]
    show (if key.name.isEmpty then
        (Except.error LookupError.noMetricName : Except LookupError MetricKey)
      else
        match nameKStage (pyName key.name) none with
        | Except.error e => Except.error e
        | Except.ok nk =>
          match sideStage (some key.side) with
          | Except.error e => Except.error e
          | Except.ok side =>
            match rtStage nk.1 (some key.rank_type) with
            | Except.error e => Except.error e
            | Except.ok rt => Except.ok ⟨nk.1, side, rt, nk.2⟩) = Except.ok key
    rw [if_neg (by simpa [List.isEmpty_iff] using hf.name_ne)]
    rw [hnk]
    show (match sideStage (some key.side) with
      | Except.error e => (Except.error e : Except LookupError MetricKey)
      | Except.ok side =>
        match rtStage key.name (some key.rank_type) with
        | Except.error e => Except.error e
        | Except.ok rt => Except.ok ⟨key.name, side, rt, none⟩) = Except.ok key
    rw [sideStage_roundtrip key.side hf.side_mem]
    show (match rtStage key.name (some key.rank_type) with
      | Except.error e => (Except.error e : Except LookupError MetricKey)
      | Except.ok rt => Except.ok ⟨key.name, key.side, rt, none⟩) = Except.ok key
    rw [rtStage_roundtrip key.name key.rank_type hf.rt_mem hf.rt_restrict]
    show Except.ok (⟨key.name, key.side, key.rank_type, none⟩ : MetricKey) = Except.ok key
    rw [← hkk]
  | some kv =>
    have hkne : kv ≠ 0 := by
      intro hh
      rw [hh] at hkk
      exact hk0 hkk
    have hpos : 0 < kv := lt_of_le_of_ne (hf.k_nonneg kv hkk) (Ne.symm hkne)
    have htn : kv.toNat ≠ 0 := by omega
    have hname : key.name = hitsAtKChars := hf.k_iff.mpr (by rw [hkk]; simp)
    have hm : metricPatternMatch (MetricKey.toChars key) =
        some ⟨key.name, some key.side, some key.rank_type,
          some (natDigitChars kv.toNat)⟩ := by
      rw [toChars_shape_some key kv hkk hpos]
      exact metricPatternMatch_parts key.name key.side key.rank_type
        ('.' :: natDigitChars kv.toNat) (some (natDigitChars kv.toNat))
        hf.name_ne hf.name_word hf.side_mem hf.rt_mem (tryK_digits kv.toNat htn)
    have hnk : nameKStage (pyName key.name) (some (natDigitChars kv.toNat)) =
        Except.ok (key.name, some kv) := by
      rw [hf.name_fixed, hname]
      exact nameKStage_roundtrip_hits kv hpos
    unfold MetricKey.lookup
    rw [hm]
    show (if key.name.isEmpty then
        (Except.error LookupError.noMetricName : Except LookupError MetricKey)
      else
        match nameKStage (pyName key.name) (some (natDigitChars kv.toNat)) with
        | Except.error e => Except.error e
        | Except.ok nk =>
          match sideStage (some key.side) with
          | Except.error e => Except.error e
          | Except.ok side =>
            match rtStage nk.1 (some key.rank_type) with
            | Except.error e => Except.error e
            | Except.ok rt => Except.ok ⟨nk.1, side, rt, nk.2⟩) = Except.ok key
    rw [if_neg (by simpa [List.isEmpty_iff] using hf.name_ne)]
    rw [hnk]
    show (match sideStage (some key.side) with
      | Except.error e => (Except.error e : Except LookupError MetricKey)
      | Except.ok side =>
        match rtStage key.name (some key.rank_type) with
        | Except.error e => Except.error e
        | Except.ok rt => Except.ok ⟨key.name, side, rt, some kv⟩) = Except.ok key
    rw [sideStage_roundtrip key.side hf.side_mem]
    show (match rtStage key.name (some key.rank_type) with
      | Except.error e => (Except.error e : Except LookupError MetricKey)
      | Except.ok rt => Except.ok ⟨key.name, key.side, rt, some kv⟩) = Except.ok key
    rw [rtStage_roundtrip key.name key.rank_type hf.rt_mem hf.rt_restrict]
    show Except.ok (⟨key.name, key.side, key.rank_type, some kv⟩ : MetricKey) = Except.ok key
    rw [← hkk]

/-- C2 (amended): normalize is idempotent for every accepted string s whose
looked-up key does not have k = 0: normalize(s) succeeds, and normalizing the
result returns it unchanged.  The unamended claim is refuted by
`c2_counterexample`: for s = "hits@0" the key has k = 0, `__str__` drops the
falsy k from the printed form, and renormalizing restores the default k = 10,
so normalize(normalize(s)) differs from normalize(s). -/
theorem c2_normalize_idempotent (s : Chars) (key : MetricKey)
    (h : MetricKey.lookup s = Except.ok key) (hk0 : key.k ≠ some 0) :
    MetricKey.normalize s = Except.ok (MetricKey.toChars key) ∧
      MetricKey.normalize (MetricKey.toChars key) = Except.ok (MetricKey.toChars key) := by
  have hf := lookup_ok_facts s key h
  have hrt := lookup_toChars key hf hk0
  constructor
  · rw [MetricKey.normalize, h]
    rfl
  · rw [MetricKey.normalize, hrt]
    rfl

/-- C2, refutation of the unamended claim: "hits@0" is accepted by lookup, but
normalize is not idempotent on it — the falsy k = 0 is dropped by `__str__`
and renormalization restores the default k = 10. -/
theorem c2_counterexample :
    MetricKey.normalize (chars (r"hits@0")) =
        Except.ok (chars (r"hits_at_k.both.realistic")) ∧
      MetricKey.normalize (chars (r"hits_at_k.both.realistic")) =
        Except.ok (chars (r"hits_at_k.both.realistic.10")) ∧
      chars (r"hits_at_k.both.realistic.10") ≠ chars (r"hits_at_k.both.realistic") := by
  refine ⟨by decide, by decide, by decide⟩

/-- C2, witness: the amended idempotence theorem applied at "mrr". -/
theorem c2_normalize_idempotent_witness :
    MetricKey.normalize (chars (r"mrr")) =
        Except.ok (MetricKey.toChars
          ⟨chars (r"inverse_harmonic_mean_rank"), bothChars, realisticChars, none⟩) ∧
      MetricKey.normalize (MetricKey.toChars
          ⟨chars (r"inverse_harmonic_mean_rank"), bothChars, realisticChars, none⟩) =
        Except.ok (MetricKey.toChars
          ⟨chars (r"inverse_harmonic_mean_rank"), bothChars, realisticChars, none⟩) :=
  c2_normalize_idempotent (chars (r"mrr"))
    ⟨chars (r"inverse_harmonic_mean_rank"), bothChars, realisticChars, none⟩
    (by decide) (by decide)
